import Mathlib

/-!
# LitCitGraph: verification of the citation-graph builder

Shallow embedding of `src/litcitgraph/graphs.py`. The module builds a directed
citation graph from seed document identifiers: two in-place upsert primitives
(`add_cit_graph_node`, `add_cit_graph_edge`), a `CitationGraph` state
(a networkx `DiGraph` plus traversal metadata), an initialisation pass, a
depth-bounded expansion loop, and a cosmetic export transform for Graphistry.

Python dicts become association lists (first-occurrence lookup, in-place
overwrite, append on fresh key — matching `dict` semantics, whose keys are
unique), `frozenset`/`set` of `PaperInfo` becomes `Finset PaperInfo`
(`PaperInfo` equality is by full value, as in the source), and the external
Scopus lookups (`get_from_scopus`, `get_refs_from_scopus`, which live in
`litcitgraph/requests.py`, outside the verified core) are oracle parameters.
In-place mutation becomes explicit state passing; `raise ValueError` becomes
`Except.error`; a `KeyError`-able dict access becomes `Option`.
-/

set_option autoImplicit false

namespace LitCitGraph

/-- A `ScopusID` is a (large) integer used as the graph node key. -/
abbrev ScopusID := Nat

/-- A seed identifier (`DOI | EID`), an opaque string at this interface. -/
abbrev Ident := String

/-- A Python attribute value as stored in node dicts: the code only ever
stores strings and integers there. -/
inductive AttrVal where
  | str (s : String)
  | num (n : Nat)
deriving DecidableEq, Repr

/-- `str(x)` rendering of an attribute value, as Python's `str` builtin. -/
def strRender : AttrVal → String
  | AttrVal.str s => s
  | AttrVal.num n => toString n

/-- Association-list lookup: first entry with the given key (Python `d[k]`
returning `None`-like absence as `Option`). -/
def alistGet {α β : Type} [DecidableEq α] : List (α × β) → α → Option β
  | [], _ => none
  | (k', v) :: rest, k => if k' = k then some v else alistGet rest k

/-- Association-list write, Python `d[k] = v`: overwrite the entry in place if
the key is present, append a fresh entry otherwise. -/
def alistSet {α β : Type} [DecidableEq α] : List (α × β) → α → β → List (α × β)
  | [], k, v => [(k, v)]
  | (k', v') :: rest, k, v =>
      if k' = k then (k, v) :: rest else (k', v') :: alistSet rest k v

/-- Association-list removal, Python `d.pop(k, None)`. -/
def alistPop {α β : Type} [DecidableEq α] (m : List (α × β)) (k : α) : List (α × β) :=
  m.filter (fun p => ! decide (p.1 = k))

/-- Keys of an association list, in order. -/
def alistKeys {α β : Type} (m : List (α × β)) : List α :=
  m.map Prod.fst

/-- Node attribute dict. -/
abbrev AttrMap := List (String × AttrVal)

/-- Modelled from the spec: the collaborator result type `PaperInfo` lives in
`litcitgraph/types.py`, which is not among the provided sources. Per the spec
it carries the stable `scopus_id` used as node key plus "a bag of
display/graph properties (title, DOI, EID, year, etc.)", and two values are
equal exactly when all fields agree (value equality, distinct from node-key
equality by `scopus_id` alone). -/
structure PaperInfo where
  scopus_id : ScopusID
  title : String
  doi : String
  year : Nat
deriving DecidableEq, Repr

/-- Modelled from the spec: `PaperInfo.graph_properties_as_dict` (also from
`litcitgraph/types.py`) returns the paper's properties as a dict; the export
transform in `graphs.py` reads its `scopus_id` and `title` keys. -/
def PaperInfo.graph_properties_as_dict (p : PaperInfo) : AttrMap :=
  [("scopus_id", AttrVal.num p.scopus_id), ("title", AttrVal.str p.title),
   ("doi", AttrVal.str p.doi), ("year", AttrVal.num p.year)]

/-- One directed edge with its attribute dict; `weight` is the only edge
attribute the code ever writes, absent on a freshly created edge. -/
structure EdgeData where
  parent : ScopusID
  child : ScopusID
  weight : Option Int
deriving DecidableEq, Repr

/-- A networkx `DiGraph` as used here: nodes keyed by `ScopusID` with an
attribute dict, and a set of directed edges (at most one per ordered pair,
an invariant the upsert primitives maintain). -/
structure DiGraph where
  nodes : List (ScopusID × AttrMap)
  edges : List EdgeData
deriving DecidableEq, Repr

/-- `node in graph.nodes`. -/
def DiGraph.hasNode (g : DiGraph) (n : ScopusID) : Bool :=
  g.nodes.any (fun p => p.1 == n)

/-- `graph.has_edge(parent, child)`. -/
def DiGraph.has_edge (g : DiGraph) (p c : ScopusID) : Bool :=
  g.edges.any (fun e => e.parent == p && e.child == c)

/-- `graph.add_node(node, **props)` on a node known to be absent. -/
def DiGraph.addNode (g : DiGraph) (n : ScopusID) (props : AttrMap) : DiGraph :=
  { g with nodes := g.nodes ++ [(n, props)] }

/-- `graph.add_edge(parent, child)` on an edge known to be absent (both
endpoints already exist at every call site): a fresh edge has no attributes. -/
def DiGraph.addEdge (g : DiGraph) (p c : ScopusID) : DiGraph :=
  { g with edges := g.edges ++ [⟨p, c, none⟩] }

/-- `graph[parent][child]['weight'] = w`: write the weight attribute on every
edge with the given endpoints (there is at most one). -/
def DiGraph.setEdgeWeight (g : DiGraph) (p c : ScopusID) (w : Int) : DiGraph :=
  { g with edges := g.edges.map (fun e =>
      if e.parent == p && e.child == c then { e with weight := some w } else e) }

/-- `add_cit_graph_node(graph, node, node_props)` from `graphs.py`:
insert-if-absent, no-op (attributes untouched) when the node exists. -/
def add_cit_graph_node (graph : DiGraph) (node : ScopusID)
    (node_props : AttrMap) : DiGraph :=
  if graph.hasNode node then graph else graph.addNode node node_props

/-- `add_cit_graph_edge(graph, parent_node, parent_node_props, child_node,
child_node_props, edge_weight=None)` from `graphs.py`: ensure both endpoint
nodes, ensure the directed edge, then write the weight when one is given. -/
def add_cit_graph_edge (graph : DiGraph) (parent_node : ScopusID)
    (parent_node_props : AttrMap) (child_node : ScopusID)
    (child_node_props : AttrMap) (edge_weight : Option Int) : DiGraph :=
  let g1 := if graph.hasNode parent_node then graph
            else graph.addNode parent_node parent_node_props
  let g2 := if g1.hasNode child_node then g1
            else g1.addNode child_node child_node_props
  let g3 := if g2.has_edge parent_node child_node then g2
            else g2.addEdge parent_node child_node
  match edge_weight with
  | none => g3
  | some w => g3.setEdgeWeight parent_node child_node w

/-- Identifier scheme tag passed to the Scopus lookup (`'doi'` / `'eid'`). -/
inductive IdType where
  | doi
  | eid
deriving DecidableEq, Repr

/-- The external lookup collaborator (`litcitgraph/requests.py`), out of the
verified core: resolution of one identifier, and the per-frontier reference
stream, `None` marking a failed resolution in both. -/
structure Scopus where
  get_from_scopus : Ident → IdType → Nat → Option PaperInfo
  get_refs_from_scopus : Finset PaperInfo → Nat → List (PaperInfo × Option PaperInfo)

/-- `CitationGraph` state: the Python class inherits `DiGraph` and adds the
traversal metadata; here the graph is a field. `use_doi` starts unassigned
(only an annotation in `__init__`), hence `Option`. -/
structure CitationGraph where
  graph : DiGraph
  name : String
  use_doi : Option Bool
  iter_depth : Nat
  papers_by_iter_depth : List (Nat × Finset PaperInfo)
  retrievals_total : Nat
  retrievals_failed : Nat
deriving DecidableEq

/-- `CitationGraph.__init__`: empty graph, depth 0, zeroed counters. -/
def CitationGraph.init (name : String) : CitationGraph :=
  { graph := { nodes := [], edges := [] }
    name := name
    use_doi := none
    iter_depth := 0
    papers_by_iter_depth := []
    retrievals_total := 0
    retrievals_failed := 0 }

/-- Loop body of `CitationGraph.__initialise`: resolve one identifier, count
the retrieval, on failure count it and skip, on success upsert the node and
add the paper to the depth-0 accumulator (`set.add`; the source guards with a
redundant membership test, which `Finset.insert` absorbs the same way). -/
def initStep (sc : Scopus) (idt : IdType)
    (st : CitationGraph × Finset PaperInfo) (identifier : Ident) :
    CitationGraph × Finset PaperInfo :=
  let g := st.1
  let papers_init := st.2
  let paper_info := sc.get_from_scopus identifier idt g.iter_depth
  let g := { g with retrievals_total := g.retrievals_total + 1 }
  match paper_info with
  | none => ({ g with retrievals_failed := g.retrievals_failed + 1 }, papers_init)
  | some info =>
      let g := { g with graph := add_cit_graph_node g.graph info.scopus_id info.graph_properties_as_dict }
      (g, if info ∉ papers_init then insert info papers_init else papers_init)

/-- `CitationGraph.__initialise(ids, use_doi)`: record the scheme, fold the
per-identifier step over the seeds, then store the accumulator as the frontier
at the current depth. -/
def initialise (sc : Scopus) (g : CitationGraph) (ids : List Ident)
    (use_doi : Bool) : CitationGraph :=
  let g := { g with use_doi := some use_doi }
  let id_type := if use_doi then IdType.doi else IdType.eid
  let st := ids.foldl (initStep sc id_type) (g, (∅ : Finset PaperInfo))
  { st.1 with papers_by_iter_depth :=
      alistSet st.1.papers_by_iter_depth st.1.iter_depth st.2 }

/-- Loop body of `CitationGraph.__iterate`: count the retrieval; on an absent
child count the failure and skip; otherwise admit the child to the
next-frontier accumulator when it is neither in the accumulator nor already a
graph node, then unconditionally upsert the edge parent → child (no weight). -/
def iterStep (st : CitationGraph × Finset PaperInfo)
    (pair : PaperInfo × Option PaperInfo) : CitationGraph × Finset PaperInfo :=
  let g := st.1
  let papers_iteration := st.2
  let g := { g with retrievals_total := g.retrievals_total + 1 }
  match pair.2 with
  | none =>
      ({ g with retrievals_failed := g.retrievals_failed + 1 }, papers_iteration)
  | some child =>
      let papers_iteration :=
        if child ∉ papers_iteration ∧ ¬ g.graph.hasNode child.scopus_id then
          insert child papers_iteration
        else papers_iteration
      let g := { g with graph := add_cit_graph_edge g.graph pair.1.scopus_id pair.1.graph_properties_as_dict child.scopus_id child.graph_properties_as_dict none }
      (g, papers_iteration)

/-- `CitationGraph.__iterate()`: one expansion pass. The dict access
`self.papers_by_iter_depth[self.iter_depth]` is total here via a default: at
every call reachable from `build_from_ids` the key is present (initialisation
stores it and each pass stores the next one). -/
def iterate (sc : Scopus) (g : CitationGraph) : CitationGraph :=
  let target_iter_depth := g.iter_depth + 1
  let papers := (alistGet g.papers_by_iter_depth g.iter_depth).getD ∅
  let references := sc.get_refs_from_scopus papers target_iter_depth
  let st := references.foldl iterStep (g, (∅ : Finset PaperInfo))
  { st.1 with
      iter_depth := target_iter_depth
      papers_by_iter_depth :=
        alistSet st.1.papers_by_iter_depth target_iter_depth st.2 }

/-- `CitationGraph.build_from_ids(ids, use_doi, target_iter_depth)`: reject a
negative target depth before anything else, otherwise initialise once and run
the expansion pass `target_iter_depth` times. -/
def build_from_ids (sc : Scopus) (g : CitationGraph) (ids : List Ident)
    (use_doi : Bool) (target_iter_depth : Int) : Except String CitationGraph :=
  if target_iter_depth < 0 then
    Except.error "Target depth must be non-negative!"
  else
    Except.ok ((iterate sc)^[target_iter_depth.toNat] (initialise sc g ids use_doi))

/-- Per-node body of `CitationGraph.transform_graphistry`, acting on the deep
copy: stringify the `scopus_id` attribute, copy `title` to `paper_title`,
drop `title`. `none` models the `KeyError` raised when a required attribute
is missing. -/
def transformNodeAttrs (attrs : AttrMap) : Option AttrMap :=
  match alistGet attrs "scopus_id", alistGet attrs "title" with
  | some sid, some t =>
      some (alistPop
        (alistSet (alistSet attrs "scopus_id" (AttrVal.str (strRender sid)))
          "paper_title" t)
        "title")
  | _, _ => none

/-- The node loop of `transform_graphistry` over the copied node list. -/
def transformNodes : List (ScopusID × AttrMap) → Option (List (ScopusID × AttrMap))
  | [] => some []
  | (n, attrs) :: rest =>
      match transformNodeAttrs attrs, transformNodes rest with
      | some a, some r => some ((n, a) :: r)
      | _, _ => none

/-- `CitationGraph.transform_graphistry()`: deep-copy the graph and rewrite
each node's attributes; edges and traversal metadata are untouched. The
source mutates the copy in place and returns it, never touching `self`; in
this pure embedding the copy is built as a new value. -/
def transform_graphistry (g : CitationGraph) : Option CitationGraph :=
  match transformNodes g.graph.nodes with
  | none => none
  | some ns => some { g with graph := { g.graph with nodes := ns } }

/-! ## Derived observations and invariant predicates -/

/-- Node keys of the graph, in insertion order (`list(graph.nodes)`). -/
def DiGraph.nodeKeys (g : DiGraph) : List ScopusID :=
  alistKeys g.nodes

/-- Number of edges with the given ordered endpoints. -/
def edgeCount (g : DiGraph) (p c : ScopusID) : Nat :=
  g.edges.countP (fun e => e.parent == p && e.child == c)

/-- The graph keeps at most one edge per ordered pair (networkx `DiGraph`
semantics, maintained by the upsert discipline). -/
def edgeKeysUnique (g : DiGraph) : Prop :=
  ∀ p c, edgeCount g p c ≤ 1

/-- Weight attribute of the parent → child edge: `none` when there is no such
edge, `some none` when the edge exists without a weight. -/
def edgeWeight (g : DiGraph) (p c : ScopusID) : Option (Option Int) :=
  (g.edges.find? (fun e => e.parent == p && e.child == c)).map EdgeData.weight

/-- A sequence of bare node upserts (`add_cit_graph_node` calls). -/
def nodeUpserts (calls : List (ScopusID × AttrMap)) (g : DiGraph) : DiGraph :=
  calls.foldl (fun h c => add_cit_graph_node h c.1 c.2) g

/-- Every paper recorded in some frontier is a node of the graph. -/
def frontierHasNodes (g : CitationGraph) : Prop :=
  ∀ d s, alistGet g.papers_by_iter_depth d = some s →
    ∀ p, p ∈ s → g.graph.hasNode p.scopus_id = true

/-- No `scopus_id` appears in the frontier sets of two different depths. -/
def frontiersDisjoint (g : CitationGraph) : Prop :=
  ∀ d1 d2 s1 s2, d1 ≠ d2 →
    alistGet g.papers_by_iter_depth d1 = some s1 →
    alistGet g.papers_by_iter_depth d2 = some s2 →
    ∀ p q, p ∈ s1 → q ∈ s2 → p.scopus_id ≠ q.scopus_id

/-- The reference stream one expansion pass of `__iterate` would consume from
the given state. -/
def iterRefs (sc : Scopus) (g : CitationGraph) : List (PaperInfo × Option PaperInfo) :=
  sc.get_refs_from_scopus ((alistGet g.papers_by_iter_depth g.iter_depth).getD ∅)
    (g.iter_depth + 1)

/-- Successful retrievals performed by the first `k` expansion passes run from
state `g1`. -/
def passSucc (sc : Scopus) (g1 : CitationGraph) : Nat → Nat
  | 0 => 0
  | Nat.succ k =>
      passSucc sc g1 k +
        (iterRefs sc ((iterate sc)^[k] g1)).countP (fun pr => pr.2.isSome)

/-- The identifier scheme tag `__initialise` derives from `use_doi`. -/
def schemeOf (use_doi : Bool) : IdType :=
  if use_doi then IdType.doi else IdType.eid

/-- Successful retrievals over a whole fresh build: successful seed
resolutions plus the successes of the `k` expansion passes. -/
def buildSuccesses (sc : Scopus) (name : String) (ids : List Ident)
    (use_doi : Bool) (k : Nat) : Nat :=
  ids.countP (fun i => (sc.get_from_scopus i (schemeOf use_doi) 0).isSome) +
    passSucc sc (initialise sc (CitationGraph.init name) ids use_doi) k

/-- The state a fresh build reaches after initialisation and `k` passes; the
`Except.ok` payload of `build_from_ids` at target depth `k`. -/
def buildState (sc : Scopus) (name : String) (ids : List Ident)
    (use_doi : Bool) (k : Nat) : CitationGraph :=
  (iterate sc)^[k] (initialise sc (CitationGraph.init name) ids use_doi)

/-! ## Concrete oracles for evaluating the model on closed inputs -/

/-- A concrete paper. -/
def pA : PaperInfo := ⟨1, "a", "da", 2020⟩

/-- Another concrete paper with a different `scopus_id`. -/
def pB : PaperInfo := ⟨2, "b", "db", 2021⟩

/-- Oracle for the self-citation scenario: one resolvable seed whose only
reference is to itself. -/
def scSelf : Scopus :=
  { get_from_scopus := fun i _ _ => if i = "id1" then some pA else none
    get_refs_from_scopus := fun _ d => if d = 1 then [(pA, some pA)] else [] }

/-- Oracle for a one-hop chain: the seed resolves to `pA`, whose single
reference resolves to the fresh paper `pB`. -/
def scChain : Scopus :=
  { get_from_scopus := fun i _ _ => if i = "id1" then some pA else none
    get_refs_from_scopus := fun _ d => if d = 1 then [(pA, some pB)] else [] }

/-- Oracle where `"id1"` resolves and every other identifier fails, with no
references at all (spec Scenario B). -/
def scB : Scopus :=
  { get_from_scopus := fun i _ _ => if i = "id1" then some pA else none
    get_refs_from_scopus := fun _ _ => [] }

/-- A concrete two-node graph with one weighted edge. -/
def gE : DiGraph :=
  { nodes := [(1, []), (2, [])], edges := [⟨1, 2, some 5⟩] }

/-- A concrete one-node citation graph whose node carries the full property
dict of `pA`. -/
def gW : CitationGraph :=
  { graph := { nodes := [(1, pA.graph_properties_as_dict)], edges := [] }
    name := "CitationGraph"
    use_doi := none
    iter_depth := 0
    papers_by_iter_depth := []
    retrievals_total := 0
    retrievals_failed := 0 }

/-- The expected Graphistry export of `gW`: `scopus_id` stringified and
`title` renamed to `paper_title` (appended after the surviving keys). -/
def gWT : CitationGraph :=
  { gW with graph := { gW.graph with nodes :=
      [(1, [("scopus_id", AttrVal.str "1"), ("doi", AttrVal.str "da"),
            ("year", AttrVal.num 2020), ("paper_title", AttrVal.str "a")])] } }

/-! ## Association-list lemmas -/

theorem alistGet_set {α β : Type} [DecidableEq α] (m : List (α × β)) (k : α) (v : β) (q : α) :
    alistGet (alistSet m k v) q = if k = q then some v else alistGet m q := by
  induction m with
  | nil => simp [alistSet, alistGet]
  | cons hd tl ih =>
      obtain ⟨a, b⟩ := hd
      by_cases hak : a = k
      · subst hak
        by_cases haq : a = q <;> simp [alistSet, alistGet, haq]
      · by_cases haq : a = q
        · subst haq
          have hkq : ¬ k = a := fun hh => hak hh.symm
          simp [alistSet, alistGet, hak, hkq]
        · simp [alistSet, alistGet, hak, haq, ih]

theorem alistKeys_cons {α β : Type} (a : α) (b : β) (tl : List (α × β)) :
    alistKeys ((a, b) :: tl) = a :: alistKeys tl := rfl

theorem alistKeys_set_of_not_mem {α β : Type} [DecidableEq α] (m : List (α × β)) (k : α) (v : β)
    (h : k ∉ alistKeys m) : alistKeys (alistSet m k v) = alistKeys m ++ [k] := by
  induction m with
  | nil => simp [alistSet, alistKeys]
  | cons hd tl ih =>
      obtain ⟨a, b⟩ := hd
      rw [alistKeys_cons] at h
      simp only [List.mem_cons, not_or] at h
      obtain ⟨h1, h2⟩ := h
      have hak : ¬ a = k := fun hh => h1 hh.symm
      simp [alistSet, hak, alistKeys_cons, ih h2]

theorem alistGet_pop {α β : Type} [DecidableEq α] (m : List (α × β)) (k q : α) :
    alistGet (alistPop m k) q = if k = q then none else alistGet m q := by
  induction m with
  | nil => simp [alistPop, alistGet]
  | cons hd tl ih =>
      obtain ⟨a, b⟩ := hd
      by_cases hak : a = k
      · subst hak
        have hpop : alistPop ((a, b) :: tl) a = alistPop tl a := by
          simp [alistPop]
        rw [hpop, ih]
        by_cases haq : a = q <;> simp [alistGet, haq]
      · have hpop : alistPop ((a, b) :: tl) k = (a, b) :: alistPop tl k := by
          simp [alistPop, hak]
        rw [hpop]
        by_cases haq : a = q
        · subst haq
          have hkq : ¬ k = a := fun hh => hak hh.symm
          simp [alistGet, hkq]
        · simp [alistGet, haq, ih]

/-! ## Lemmas on the graph upsert primitives -/

theorem hasNode_iff_mem_keys (g : DiGraph) (n : ScopusID) :
    g.hasNode n = true ↔ n ∈ g.nodeKeys := by
  simp [DiGraph.hasNode, DiGraph.nodeKeys, alistKeys, List.any_eq_true, List.mem_map]

theorem add_cit_graph_node_of_hasNode (g : DiGraph) (n : ScopusID) (props : AttrMap)
    (h : g.hasNode n = true) : add_cit_graph_node g n props = g := by
  simp [add_cit_graph_node, h]

theorem nodes_add_cit_graph_node_of_not (g : DiGraph) (n : ScopusID) (props : AttrMap)
    (h : g.hasNode n = false) :
    (add_cit_graph_node g n props).nodes = g.nodes ++ [(n, props)] := by
  simp [add_cit_graph_node, h, DiGraph.addNode]

theorem edges_add_cit_graph_node (g : DiGraph) (n : ScopusID) (props : AttrMap) :
    (add_cit_graph_node g n props).edges = g.edges := by
  by_cases h : g.hasNode n = true <;> simp [add_cit_graph_node, h, DiGraph.addNode]

theorem hasNode_add_cit_graph_node (g : DiGraph) (n : ScopusID) (props : AttrMap)
    (m : ScopusID) :
    (add_cit_graph_node g n props).hasNode m = (g.hasNode m || n == m) := by
  by_cases h : g.hasNode n = true
  · rw [add_cit_graph_node_of_hasNode g n props h]
    by_cases hm : n = m
    · subst hm; simp [h]
    · simp [hm]
  · have h2 := nodes_add_cit_graph_node_of_not g n props (by simpa using h)
    simp [DiGraph.hasNode, h2, List.any_append]

theorem nodeKeys_toFinset_add_cit_graph_node (g : DiGraph) (n : ScopusID) (props : AttrMap) :
    (add_cit_graph_node g n props).nodeKeys.toFinset = insert n g.nodeKeys.toFinset := by
  by_cases h : g.hasNode n = true
  · rw [add_cit_graph_node_of_hasNode g n props h]
    have hm : n ∈ g.nodeKeys := (hasNode_iff_mem_keys g n).1 h
    rw [Finset.insert_eq_self.mpr (List.mem_toFinset.mpr hm)]
  · have h2 := nodes_add_cit_graph_node_of_not g n props (by simpa using h)
    have hk : (add_cit_graph_node g n props).nodeKeys = g.nodeKeys ++ [n] := by
      simp [DiGraph.nodeKeys, alistKeys, h2]
    rw [hk, List.toFinset_append]
    have hn1 : ([n] : List ScopusID).toFinset = {n} := by simp
    rw [hn1, Finset.union_comm, ← Finset.insert_eq]

theorem nodup_nodeKeys_add_cit_graph_node (g : DiGraph) (n : ScopusID) (props : AttrMap)
    (h : g.nodeKeys.Nodup) : (add_cit_graph_node g n props).nodeKeys.Nodup := by
  by_cases hn : g.hasNode n = true
  · rw [add_cit_graph_node_of_hasNode g n props hn]; exact h
  · have h2 := nodes_add_cit_graph_node_of_not g n props (by simpa using hn)
    have hk : (add_cit_graph_node g n props).nodeKeys = g.nodeKeys ++ [n] := by
      simp [DiGraph.nodeKeys, alistKeys, h2]
    have hmem : n ∉ g.nodeKeys := fun hm => hn ((hasNode_iff_mem_keys g n).2 hm)
    rw [hk]
    simp [List.nodup_append, h, hmem]

theorem length_nodes_eq_length_keys (g : DiGraph) :
    g.nodes.length = g.nodeKeys.length := by
  simp [DiGraph.nodeKeys, alistKeys]

theorem has_edge_congr (g g' : DiGraph) (h : g'.edges = g.edges) (p c : ScopusID) :
    g'.has_edge p c = g.has_edge p c := by
  simp [DiGraph.has_edge, h]

theorem add_cit_graph_edge_eq (g : DiGraph) (p : ScopusID) (pp : AttrMap) (c : ScopusID)
    (cp : AttrMap) (w : Option Int) :
    add_cit_graph_edge g p pp c cp w =
      (let g2 := add_cit_graph_node (add_cit_graph_node g p pp) c cp
       let g3 := if g2.has_edge p c then g2 else g2.addEdge p c
       match w with
       | none => g3
       | some wt => g3.setEdgeWeight p c wt) := rfl

theorem edges_add_cit_graph_edge_none (g : DiGraph) (p : ScopusID) (pp : AttrMap)
    (c : ScopusID) (cp : AttrMap) :
    (add_cit_graph_edge g p pp c cp none).edges =
      if g.has_edge p c then g.edges else g.edges ++ [⟨p, c, none⟩] := by
  have h2 : (add_cit_graph_node (add_cit_graph_node g p pp) c cp).edges = g.edges := by
    rw [edges_add_cit_graph_node, edges_add_cit_graph_node]
  have hhe := has_edge_congr g _ h2 p c
  simp only [add_cit_graph_edge_eq]
  rw [hhe]
  by_cases h : g.has_edge p c = true <;> simp [h, DiGraph.addEdge, h2]

theorem edges_add_cit_graph_edge_some (g : DiGraph) (p : ScopusID) (pp : AttrMap)
    (c : ScopusID) (cp : AttrMap) (wt : Int) :
    (add_cit_graph_edge g p pp c cp (some wt)).edges =
      ((add_cit_graph_edge g p pp c cp none).edges).map
        (fun e => if e.parent == p && e.child == c then { e with weight := some wt } else e) :=
  rfl

theorem nodes_add_cit_graph_edge (g : DiGraph) (p : ScopusID) (pp : AttrMap) (c : ScopusID)
    (cp : AttrMap) (w : Option Int) :
    (add_cit_graph_edge g p pp c cp w).nodes =
      (add_cit_graph_node (add_cit_graph_node g p pp) c cp).nodes := by
  simp only [add_cit_graph_edge_eq]
  cases w with
  | none =>
      by_cases h : (add_cit_graph_node (add_cit_graph_node g p pp) c cp).has_edge p c = true <;>
        simp [h, DiGraph.addEdge]
  | some wt =>
      by_cases h : (add_cit_graph_node (add_cit_graph_node g p pp) c cp).has_edge p c = true <;>
        simp [h, DiGraph.addEdge, DiGraph.setEdgeWeight]

theorem hasNode_add_cit_graph_edge (g : DiGraph) (p : ScopusID) (pp : AttrMap) (c : ScopusID)
    (cp : AttrMap) (w : Option Int) (m : ScopusID) :
    (add_cit_graph_edge g p pp c cp w).hasNode m = ((g.hasNode m || p == m) || c == m) := by
  have h := nodes_add_cit_graph_edge g p pp c cp w
  show (add_cit_graph_edge g p pp c cp w).nodes.any (fun q => q.1 == m) = _
  rw [h]
  show (add_cit_graph_node (add_cit_graph_node g p pp) c cp).hasNode m = _
  rw [hasNode_add_cit_graph_node, hasNode_add_cit_graph_node]

theorem setw_preserves_pc (a b : ScopusID) (w : Int) (e : EdgeData) (p c : ScopusID) :
    ((if e.parent == a && e.child == b then { e with weight := some w } else e).parent == p &&
      (if e.parent == a && e.child == b then { e with weight := some w } else e).child == c) =
      (e.parent == p && e.child == c) := by
  by_cases h : (e.parent == a && e.child == b) = true
  · rw [if_pos h]
  · rw [if_neg h]

theorem any_pc_map_setw (l : List EdgeData) (a b p c : ScopusID) (w : Int) :
    (l.map (fun e => if e.parent == a && e.child == b then { e with weight := some w } else e)).any
        (fun e => e.parent == p && e.child == c) =
      l.any (fun e => e.parent == p && e.child == c) := by
  induction l with
  | nil => rfl
  | cons e tl ih =>
      simp only [List.map_cons, List.any_cons]
      rw [ih, setw_preserves_pc]

theorem countP_pc_map_setw (l : List EdgeData) (a b p c : ScopusID) (w : Int) :
    (l.map (fun e => if e.parent == a && e.child == b then { e with weight := some w } else e)).countP
        (fun e => e.parent == p && e.child == c) =
      l.countP (fun e => e.parent == p && e.child == c) := by
  induction l with
  | nil => rfl
  | cons e tl ih =>
      simp only [List.map_cons, List.countP_cons]
      rw [ih, setw_preserves_pc]

theorem has_edge_add_cit_graph_edge (g : DiGraph) (p : ScopusID) (pp : AttrMap) (c : ScopusID)
    (cp : AttrMap) (w : Option Int) :
    (add_cit_graph_edge g p pp c cp w).has_edge p c = true := by
  have hnone : (add_cit_graph_edge g p pp c cp none).has_edge p c = true := by
    show (add_cit_graph_edge g p pp c cp none).edges.any _ = true
    rw [edges_add_cit_graph_edge_none]
    by_cases h : g.has_edge p c = true
    · rw [if_pos h]; exact h
    · rw [if_neg h]; simp [List.any_append]
  cases w with
  | none => exact hnone
  | some wt =>
      show (add_cit_graph_edge g p pp c cp (some wt)).edges.any _ = true
      rw [edges_add_cit_graph_edge_some, any_pc_map_setw]
      exact hnone

theorem has_edge_iff_edgeCount_pos (g : DiGraph) (p c : ScopusID) :
    g.has_edge p c = true ↔ 0 < edgeCount g p c := by
  simp [DiGraph.has_edge, edgeCount, List.any_eq_true, List.countP_pos_iff]

theorem edgeCount_add_cit_graph_edge_none (g : DiGraph) (p : ScopusID) (pp : AttrMap)
    (c : ScopusID) (cp : AttrMap) (a b : ScopusID) :
    edgeCount (add_cit_graph_edge g p pp c cp none) a b =
      if g.has_edge p c = true then edgeCount g a b
      else edgeCount g a b + if (p == a && c == b) = true then 1 else 0 := by
  simp only [edgeCount, edges_add_cit_graph_edge_none]
  by_cases h : g.has_edge p c = true
  · rw [if_pos h, if_pos h]
  · rw [if_neg h, if_neg h, List.countP_append, List.countP_cons, List.countP_nil,
      Nat.zero_add]

theorem edgeCount_add_cit_graph_edge_some (g : DiGraph) (p : ScopusID) (pp : AttrMap)
    (c : ScopusID) (cp : AttrMap) (wt : Int) (a b : ScopusID) :
    edgeCount (add_cit_graph_edge g p pp c cp (some wt)) a b =
      edgeCount (add_cit_graph_edge g p pp c cp none) a b := by
  simp only [edgeCount, edges_add_cit_graph_edge_some]
  exact countP_pc_map_setw _ p c a b wt

theorem edgeKeysUnique_add_cit_graph_edge (g : DiGraph) (p : ScopusID) (pp : AttrMap)
    (c : ScopusID) (cp : AttrMap) (w : Option Int) (h : edgeKeysUnique g) :
    edgeKeysUnique (add_cit_graph_edge g p pp c cp w) := by
  intro a b
  have hbase : edgeCount (add_cit_graph_edge g p pp c cp none) a b ≤ 1 := by
    rw [edgeCount_add_cit_graph_edge_none]
    by_cases hh : g.has_edge p c = true
    · rw [if_pos hh]; exact h a b
    · rw [if_neg hh]
      by_cases hab : (p == a && c == b) = true
      · rw [if_pos hab]
        simp only [Bool.and_eq_true, beq_iff_eq] at hab
        obtain ⟨hpa, hcb⟩ := hab
        subst hpa; subst hcb
        have hz : ¬ 0 < edgeCount g p c := fun hpos =>
          (by simp [((has_edge_iff_edgeCount_pos g p c).2 hpos)] at hh)
        omega
      · rw [if_neg hab]
        have := h a b
        omega
  cases w with
  | none => exact hbase
  | some wt => rw [edgeCount_add_cit_graph_edge_some]; exact hbase

theorem edgeCount_add_cit_graph_edge_self (g : DiGraph) (p : ScopusID) (pp : AttrMap)
    (c : ScopusID) (cp : AttrMap) (w : Option Int) (h : edgeKeysUnique g) :
    edgeCount (add_cit_graph_edge g p pp c cp w) p c = 1 := by
  have h1 := has_edge_add_cit_graph_edge g p pp c cp w
  have h2 := (has_edge_iff_edgeCount_pos (add_cit_graph_edge g p pp c cp w) p c).1 h1
  have h3 := edgeKeysUnique_add_cit_graph_edge g p pp c cp w h p c
  omega

theorem edgeWeight_add_none_of_has (g : DiGraph) (p : ScopusID) (pp : AttrMap)
    (c : ScopusID) (cp : AttrMap) (h : g.has_edge p c = true) :
    edgeWeight (add_cit_graph_edge g p pp c cp none) p c = edgeWeight g p c := by
  simp only [edgeWeight]
  rw [edges_add_cit_graph_edge_none, if_pos h]

theorem edgeWeight_add_none_of_not (g : DiGraph) (p : ScopusID) (pp : AttrMap)
    (c : ScopusID) (cp : AttrMap) (h : g.has_edge p c = false) :
    edgeWeight (add_cit_graph_edge g p pp c cp none) p c = some none := by
  simp only [edgeWeight]
  rw [edges_add_cit_graph_edge_none, if_neg (by simp [h]), List.find?_append]
  have hnone : g.edges.find? (fun e => e.parent == p && e.child == c) = none := by
    rw [List.find?_eq_none]
    intro x hx hpx
    have hany : g.has_edge p c = true := List.any_eq_true.2 ⟨x, hx, hpx⟩
    rw [h] at hany
    exact Bool.false_ne_true hany
  rw [hnone]
  simp

theorem find?_map_setw (l : List EdgeData) (p c : ScopusID) (w : Int)
    (h : l.any (fun e => e.parent == p && e.child == c) = true) :
    ((l.map (fun e => if e.parent == p && e.child == c then { e with weight := some w } else e)).find?
        (fun e => e.parent == p && e.child == c)).map EdgeData.weight = some (some w) := by
  induction l with
  | nil => simp at h
  | cons e tl ih =>
      by_cases he : (e.parent == p && e.child == c) = true
      · simp only [List.map_cons]
        rw [if_pos he, List.find?_cons]
        rw [he]
        rfl
      · simp only [List.map_cons]
        rw [if_neg he, List.find?_cons]
        have he' : (e.parent == p && e.child == c) = false := by simpa using he
        rw [he']
        exact ih (by simpa [List.any_cons, he] using h)

theorem edgeWeight_add_some (g : DiGraph) (p : ScopusID) (pp : AttrMap)
    (c : ScopusID) (cp : AttrMap) (wt : Int) :
    edgeWeight (add_cit_graph_edge g p pp c cp (some wt)) p c = some (some wt) := by
  simp only [edgeWeight, edges_add_cit_graph_edge_some]
  exact find?_map_setw _ p c wt (has_edge_add_cit_graph_edge g p pp c cp none)

/-! ## Fold machinery and per-step characterizations -/

theorem foldl_preserves {α β : Type} (P : β → Prop) {f : β → α → β}
    (h : ∀ b a, P b → P (f b a)) :
    ∀ (l : List α) (b : β), P b → P (l.foldl f b) := by
  intro l
  induction l with
  | nil => intro b hb; exact hb
  | cons a tl ih => intro b hb; exact ih _ (h b a hb)

theorem nodeUpserts_keys_toFinset (calls : List (ScopusID × AttrMap)) (g : DiGraph) :
    (nodeUpserts calls g).nodeKeys.toFinset =
      g.nodeKeys.toFinset ∪ (calls.map Prod.fst).toFinset := by
  induction calls generalizing g with
  | nil => simp [nodeUpserts]
  | cons c tl ih =>
      show (nodeUpserts tl (add_cit_graph_node g c.1 c.2)).nodeKeys.toFinset = _
      rw [ih, nodeKeys_toFinset_add_cit_graph_node, List.map_cons, List.toFinset_cons,
        Finset.insert_union, Finset.union_insert]

theorem nodeUpserts_nodup (calls : List (ScopusID × AttrMap)) (g : DiGraph)
    (h : g.nodeKeys.Nodup) : (nodeUpserts calls g).nodeKeys.Nodup := by
  induction calls generalizing g with
  | nil => exact h
  | cons c tl ih => exact ih _ (nodup_nodeKeys_add_cit_graph_node g c.1 c.2 h)

theorem initStep_none (sc : Scopus) (idt : IdType) (st : CitationGraph × Finset PaperInfo)
    (i : Ident) (h : sc.get_from_scopus i idt st.1.iter_depth = none) :
    initStep sc idt st i =
      ({ st.1 with retrievals_total := st.1.retrievals_total + 1,
                   retrievals_failed := st.1.retrievals_failed + 1 }, st.2) := by
  simp [initStep, h]

theorem initStep_some (sc : Scopus) (idt : IdType) (st : CitationGraph × Finset PaperInfo)
    (i : Ident) (info : PaperInfo)
    (h : sc.get_from_scopus i idt st.1.iter_depth = some info) :
    initStep sc idt st i =
      ({ st.1 with retrievals_total := st.1.retrievals_total + 1,
                   graph := add_cit_graph_node st.1.graph info.scopus_id
                     info.graph_properties_as_dict },
       insert info st.2) := by
  by_cases hm : info ∈ st.2
  · simp [initStep, h, hm, Finset.insert_eq_self.mpr hm]
  · simp [initStep, h, hm]

theorem iterStep_none (st : CitationGraph × Finset PaperInfo) (parent : PaperInfo) :
    iterStep st (parent, none) =
      ({ st.1 with retrievals_total := st.1.retrievals_total + 1,
                   retrievals_failed := st.1.retrievals_failed + 1 }, st.2) := by
  simp [iterStep]

theorem iterStep_some (st : CitationGraph × Finset PaperInfo) (parent child : PaperInfo) :
    iterStep st (parent, some child) =
      ({ st.1 with retrievals_total := st.1.retrievals_total + 1,
                   graph := add_cit_graph_edge st.1.graph parent.scopus_id
                     parent.graph_properties_as_dict child.scopus_id
                     child.graph_properties_as_dict none },
       if child ∉ st.2 ∧ ¬ st.1.graph.hasNode child.scopus_id = true then
         insert child st.2
       else st.2) := by
  simp [iterStep]

theorem initStep_components (sc : Scopus) (idt : IdType)
    (st : CitationGraph × Finset PaperInfo) (i : Ident) :
    (initStep sc idt st i).1.iter_depth = st.1.iter_depth ∧
    (initStep sc idt st i).1.papers_by_iter_depth = st.1.papers_by_iter_depth ∧
    (initStep sc idt st i).1.use_doi = st.1.use_doi ∧
    (initStep sc idt st i).1.name = st.1.name ∧
    (initStep sc idt st i).1.graph.edges = st.1.graph.edges := by
  cases h : sc.get_from_scopus i idt st.1.iter_depth with
  | none => rw [initStep_none sc idt st i h]; exact ⟨rfl, rfl, rfl, rfl, rfl⟩
  | some info =>
      rw [initStep_some sc idt st i info h]
      exact ⟨rfl, rfl, rfl, rfl, edges_add_cit_graph_node _ _ _⟩

theorem initStep_counters (sc : Scopus) (idt : IdType)
    (st : CitationGraph × Finset PaperInfo) (i : Ident) :
    (initStep sc idt st i).1.retrievals_total = st.1.retrievals_total + 1 ∧
    (initStep sc idt st i).1.retrievals_failed = st.1.retrievals_failed +
      (if (sc.get_from_scopus i idt st.1.iter_depth).isNone = true then 1 else 0) := by
  cases h : sc.get_from_scopus i idt st.1.iter_depth with
  | none => rw [initStep_none sc idt st i h]; simp
  | some info => rw [initStep_some sc idt st i info h]; simp

theorem iterStep_components (st : CitationGraph × Finset PaperInfo)
    (pr : PaperInfo × Option PaperInfo) :
    (iterStep st pr).1.iter_depth = st.1.iter_depth ∧
    (iterStep st pr).1.papers_by_iter_depth = st.1.papers_by_iter_depth ∧
    (iterStep st pr).1.use_doi = st.1.use_doi ∧
    (iterStep st pr).1.name = st.1.name := by
  obtain ⟨parent, child⟩ := pr
  cases child with
  | none => rw [iterStep_none st parent]; exact ⟨rfl, rfl, rfl, rfl⟩
  | some c => rw [iterStep_some st parent c]; exact ⟨rfl, rfl, rfl, rfl⟩

theorem iterStep_counters (st : CitationGraph × Finset PaperInfo)
    (pr : PaperInfo × Option PaperInfo) :
    (iterStep st pr).1.retrievals_total = st.1.retrievals_total + 1 ∧
    (iterStep st pr).1.retrievals_failed = st.1.retrievals_failed +
      (if pr.2.isNone = true then 1 else 0) := by
  obtain ⟨parent, child⟩ := pr
  cases child with
  | none => rw [iterStep_none st parent]; simp
  | some c => rw [iterStep_some st parent c]; simp

theorem initStep_graph_none (sc : Scopus) (idt : IdType)
    (st : CitationGraph × Finset PaperInfo) (i : Ident)
    (h : sc.get_from_scopus i idt st.1.iter_depth = none) :
    (initStep sc idt st i).1.graph = st.1.graph := by
  rw [initStep_none sc idt st i h]

theorem initStep_graph_some (sc : Scopus) (idt : IdType)
    (st : CitationGraph × Finset PaperInfo) (i : Ident) (info : PaperInfo)
    (h : sc.get_from_scopus i idt st.1.iter_depth = some info) :
    (initStep sc idt st i).1.graph =
      add_cit_graph_node st.1.graph info.scopus_id info.graph_properties_as_dict := by
  rw [initStep_some sc idt st i info h]

theorem iterStep_graph_none (st : CitationGraph × Finset PaperInfo) (parent : PaperInfo) :
    (iterStep st (parent, none)).1.graph = st.1.graph := by
  rw [iterStep_none st parent]

theorem iterStep_graph_some (st : CitationGraph × Finset PaperInfo)
    (parent child : PaperInfo) :
    (iterStep st (parent, some child)).1.graph =
      add_cit_graph_edge st.1.graph parent.scopus_id parent.graph_properties_as_dict
        child.scopus_id child.graph_properties_as_dict none := by
  rw [iterStep_some st parent child]

theorem iterStep_snd_none (st : CitationGraph × Finset PaperInfo) (parent : PaperInfo) :
    (iterStep st (parent, none)).2 = st.2 := by
  rw [iterStep_none st parent]

theorem iterStep_snd_some (st : CitationGraph × Finset PaperInfo)
    (parent child : PaperInfo) :
    (iterStep st (parent, some child)).2 =
      if child ∉ st.2 ∧ ¬ st.1.graph.hasNode child.scopus_id = true then
        insert child st.2
      else st.2 := by
  rw [iterStep_some st parent child]

/-! ## Fold-level facts about the initialisation pass -/

theorem initFold_meta (sc : Scopus) (idt : IdType) (ids : List Ident)
    (st : CitationGraph × Finset PaperInfo) :
    (ids.foldl (initStep sc idt) st).1.iter_depth = st.1.iter_depth ∧
    (ids.foldl (initStep sc idt) st).1.papers_by_iter_depth = st.1.papers_by_iter_depth ∧
    (ids.foldl (initStep sc idt) st).1.use_doi = st.1.use_doi ∧
    (ids.foldl (initStep sc idt) st).1.name = st.1.name ∧
    (ids.foldl (initStep sc idt) st).1.graph.edges = st.1.graph.edges := by
  induction ids generalizing st with
  | nil => exact ⟨rfl, rfl, rfl, rfl, rfl⟩
  | cons i tl ih =>
      obtain ⟨a1, a2, a3, a4, a5⟩ := ih (initStep sc idt st i)
      obtain ⟨b1, b2, b3, b4, b5⟩ := initStep_components sc idt st i
      exact ⟨a1.trans b1, a2.trans b2, a3.trans b3, a4.trans b4, a5.trans b5⟩

theorem initFold_counters (sc : Scopus) (idt : IdType) (ids : List Ident)
    (st : CitationGraph × Finset PaperInfo) :
    (ids.foldl (initStep sc idt) st).1.retrievals_total =
      st.1.retrievals_total + ids.length ∧
    (ids.foldl (initStep sc idt) st).1.retrievals_failed =
      st.1.retrievals_failed +
        ids.countP (fun i => (sc.get_from_scopus i idt st.1.iter_depth).isNone) := by
  induction ids generalizing st with
  | nil => simp
  | cons i tl ih =>
      obtain ⟨a1, a2⟩ := ih (initStep sc idt st i)
      obtain ⟨b1, b2⟩ := initStep_counters sc idt st i
      rw [(initStep_components sc idt st i).1] at a2
      constructor
      · show (tl.foldl (initStep sc idt) (initStep sc idt st i)).1.retrievals_total = _
        rw [a1, b1, List.length_cons]
        omega
      · show (tl.foldl (initStep sc idt) (initStep sc idt st i)).1.retrievals_failed = _
        rw [a2, b2, List.countP_cons]
        omega

theorem initFold_set (sc : Scopus) (idt : IdType) (ids : List Ident)
    (st : CitationGraph × Finset PaperInfo) :
    (ids.foldl (initStep sc idt) st).2 =
      st.2 ∪ (ids.filterMap (fun i => sc.get_from_scopus i idt st.1.iter_depth)).toFinset := by
  induction ids generalizing st with
  | nil => simp
  | cons i tl ih =>
      have hh := ih (initStep sc idt st i)
      rw [(initStep_components sc idt st i).1] at hh
      show (tl.foldl (initStep sc idt) (initStep sc idt st i)).2 = _
      rw [hh]
      cases h : sc.get_from_scopus i idt st.1.iter_depth with
      | none =>
          rw [initStep_none sc idt st i h]
          simp [List.filterMap_cons, h]
      | some info =>
          rw [initStep_some sc idt st i info h]
          simp [List.filterMap_cons, h, Finset.insert_union, Finset.union_insert]

theorem initFold_nodeKeys (sc : Scopus) (idt : IdType) (ids : List Ident)
    (st : CitationGraph × Finset PaperInfo) :
    (ids.foldl (initStep sc idt) st).1.graph.nodeKeys.toFinset =
      st.1.graph.nodeKeys.toFinset ∪
        ((ids.filterMap (fun i => sc.get_from_scopus i idt st.1.iter_depth)).map
          PaperInfo.scopus_id).toFinset := by
  induction ids generalizing st with
  | nil => simp
  | cons i tl ih =>
      have hh := ih (initStep sc idt st i)
      rw [(initStep_components sc idt st i).1] at hh
      show (tl.foldl (initStep sc idt) (initStep sc idt st i)).1.graph.nodeKeys.toFinset = _
      rw [hh]
      cases h : sc.get_from_scopus i idt st.1.iter_depth with
      | none =>
          rw [initStep_graph_none sc idt st i h]
          simp [List.filterMap_cons, h]
      | some info =>
          rw [initStep_graph_some sc idt st i info h,
            nodeKeys_toFinset_add_cit_graph_node]
          simp [List.filterMap_cons, h, Finset.insert_union, Finset.union_insert]

theorem initFold_hasNode_mono (sc : Scopus) (idt : IdType) (ids : List Ident)
    (st : CitationGraph × Finset PaperInfo) (m : ScopusID)
    (h : st.1.graph.hasNode m = true) :
    (ids.foldl (initStep sc idt) st).1.graph.hasNode m = true := by
  refine foldl_preserves
    (fun b => b.1.graph.hasNode m = true) ?step ids st h
  intro b a hb
  cases hh : sc.get_from_scopus a idt b.1.iter_depth with
  | none => rw [initStep_graph_none sc idt b a hh]; exact hb
  | some info =>
      rw [initStep_graph_some sc idt b a info hh, hasNode_add_cit_graph_node, hb]
      rfl

theorem initFold_acc_nodes (sc : Scopus) (idt : IdType) (ids : List Ident)
    (st : CitationGraph × Finset PaperInfo)
    (hinv : ∀ p ∈ st.2, st.1.graph.hasNode p.scopus_id = true) :
    ∀ p ∈ (ids.foldl (initStep sc idt) st).2,
      (ids.foldl (initStep sc idt) st).1.graph.hasNode p.scopus_id = true := by
  refine foldl_preserves
    (fun b => ∀ p ∈ b.2, b.1.graph.hasNode p.scopus_id = true) ?step ids st hinv
  intro b a hb
  cases hh : sc.get_from_scopus a idt b.1.iter_depth with
  | none =>
      intro p hp
      rw [initStep_none sc idt b a hh] at hp ⊢
      exact hb p hp
  | some info =>
      intro p hp
      rw [initStep_some sc idt b a info hh] at hp ⊢
      simp only [Finset.mem_insert] at hp
      show (add_cit_graph_node b.1.graph info.scopus_id
        info.graph_properties_as_dict).hasNode p.scopus_id = true
      rw [hasNode_add_cit_graph_node]
      cases hp with
      | inl hpi => subst hpi; simp
      | inr hpm => rw [hb p hpm]; rfl

/-! ## Fold-level facts about the expansion pass -/

theorem iterFold_meta (refs : List (PaperInfo × Option PaperInfo))
    (st : CitationGraph × Finset PaperInfo) :
    (refs.foldl iterStep st).1.iter_depth = st.1.iter_depth ∧
    (refs.foldl iterStep st).1.papers_by_iter_depth = st.1.papers_by_iter_depth ∧
    (refs.foldl iterStep st).1.use_doi = st.1.use_doi ∧
    (refs.foldl iterStep st).1.name = st.1.name := by
  induction refs generalizing st with
  | nil => exact ⟨rfl, rfl, rfl, rfl⟩
  | cons pr tl ih =>
      obtain ⟨a1, a2, a3, a4⟩ := ih (iterStep st pr)
      obtain ⟨b1, b2, b3, b4⟩ := iterStep_components st pr
      exact ⟨a1.trans b1, a2.trans b2, a3.trans b3, a4.trans b4⟩

theorem iterFold_counters (refs : List (PaperInfo × Option PaperInfo))
    (st : CitationGraph × Finset PaperInfo) :
    (refs.foldl iterStep st).1.retrievals_total = st.1.retrievals_total + refs.length ∧
    (refs.foldl iterStep st).1.retrievals_failed =
      st.1.retrievals_failed + refs.countP (fun pr => pr.2.isNone) := by
  induction refs generalizing st with
  | nil => simp
  | cons pr tl ih =>
      obtain ⟨a1, a2⟩ := ih (iterStep st pr)
      obtain ⟨b1, b2⟩ := iterStep_counters st pr
      constructor
      · show (tl.foldl iterStep (iterStep st pr)).1.retrievals_total = _
        rw [a1, b1, List.length_cons]
        omega
      · show (tl.foldl iterStep (iterStep st pr)).1.retrievals_failed = _
        rw [a2, b2, List.countP_cons]
        omega

theorem iterFold_hasNode_mono (refs : List (PaperInfo × Option PaperInfo))
    (st : CitationGraph × Finset PaperInfo) (m : ScopusID)
    (h : st.1.graph.hasNode m = true) :
    (refs.foldl iterStep st).1.graph.hasNode m = true := by
  refine foldl_preserves
    (fun b => b.1.graph.hasNode m = true) ?step refs st h
  intro b a hb
  obtain ⟨parent, child⟩ := a
  cases child with
  | none => rw [iterStep_graph_none b parent]; exact hb
  | some c =>
      rw [iterStep_graph_some b parent c, hasNode_add_cit_graph_edge, hb]
      rfl

theorem iterFold_origin (refs : List (PaperInfo × Option PaperInfo))
    (g0 : CitationGraph) (s0 : Finset PaperInfo) :
    ∀ p ∈ (refs.foldl iterStep (g0, s0)).2,
      p ∈ s0 ∨ g0.graph.hasNode p.scopus_id = false := by
  have main : (∀ m, g0.graph.hasNode m = true →
      (refs.foldl iterStep (g0, s0)).1.graph.hasNode m = true) ∧
      (∀ p ∈ (refs.foldl iterStep (g0, s0)).2,
        p ∈ s0 ∨ g0.graph.hasNode p.scopus_id = false) := by
    refine foldl_preserves
      (fun b => (∀ m, g0.graph.hasNode m = true → b.1.graph.hasNode m = true) ∧
        (∀ p ∈ b.2, p ∈ s0 ∨ g0.graph.hasNode p.scopus_id = false))
      ?step refs (g0, s0) ⟨fun m hm => hm, fun p hp => Or.inl hp⟩
    intro b a hb
    obtain ⟨parent, child⟩ := a
    cases child with
    | none =>
        refine ⟨?_, ?_⟩
        · intro m hm
          rw [iterStep_graph_none b parent]
          exact hb.1 m hm
        · intro p hp
          rw [iterStep_snd_none b parent] at hp
          exact hb.2 p hp
    | some c =>
        refine ⟨?_, ?_⟩
        · intro m hm
          rw [iterStep_graph_some b parent c, hasNode_add_cit_graph_edge, hb.1 m hm]
          rfl
        · intro p hp
          rw [iterStep_snd_some b parent c] at hp
          by_cases hc : c ∉ b.2 ∧ ¬ b.1.graph.hasNode c.scopus_id = true
          · rw [if_pos hc] at hp
            simp only [Finset.mem_insert] at hp
            cases hp with
            | inl hpc =>
                subst hpc
                right
                cases hg : g0.graph.hasNode p.scopus_id with
                | false => rfl
                | true => exact absurd (hb.1 p.scopus_id hg) hc.2
            | inr hpm => exact hb.2 p hpm
          · rw [if_neg hc] at hp
            exact hb.2 p hp
  exact main.2

theorem iterFold_acc_nodes (refs : List (PaperInfo × Option PaperInfo))
    (st : CitationGraph × Finset PaperInfo)
    (hinv : ∀ p ∈ st.2, st.1.graph.hasNode p.scopus_id = true) :
    ∀ p ∈ (refs.foldl iterStep st).2,
      (refs.foldl iterStep st).1.graph.hasNode p.scopus_id = true := by
  refine foldl_preserves
    (fun b => ∀ p ∈ b.2, b.1.graph.hasNode p.scopus_id = true) ?step refs st hinv
  intro b a hb
  obtain ⟨parent, child⟩ := a
  cases child with
  | none =>
      intro p hp
      rw [iterStep_snd_none b parent] at hp
      rw [iterStep_graph_none b parent]
      exact hb p hp
  | some c =>
      intro p hp
      rw [iterStep_snd_some b parent c] at hp
      rw [iterStep_graph_some b parent c, hasNode_add_cit_graph_edge]
      by_cases hc : c ∉ b.2 ∧ ¬ b.1.graph.hasNode c.scopus_id = true
      · rw [if_pos hc] at hp
        simp only [Finset.mem_insert] at hp
        cases hp with
        | inl hpc => subst hpc; simp
        | inr hpm => rw [hb p hpm]; rfl
      · rw [if_neg hc] at hp
        rw [hb p hp]
        rfl

theorem iterFold_weightless (refs : List (PaperInfo × Option PaperInfo))
    (st : CitationGraph × Finset PaperInfo)
    (h : ∀ e ∈ st.1.graph.edges, e.weight = none) :
    ∀ e ∈ (refs.foldl iterStep st).1.graph.edges, e.weight = none := by
  refine foldl_preserves
    (fun b => ∀ e ∈ b.1.graph.edges, e.weight = none) ?step refs st h
  intro b a hb
  obtain ⟨parent, child⟩ := a
  cases child with
  | none =>
      intro e he
      rw [iterStep_graph_none b parent] at he
      exact hb e he
  | some c =>
      intro e he
      rw [iterStep_graph_some b parent c, edges_add_cit_graph_edge_none] at he
      by_cases hc : b.1.graph.has_edge parent.scopus_id c.scopus_id = true
      · rw [if_pos hc] at he
        exact hb e he
      · rw [if_neg hc] at he
        rcases List.mem_append.1 he with hold | hnew
        · exact hb e hold
        · rw [List.mem_singleton.1 hnew]

/-! ## Pass-level characterizations -/

theorem initialise_spec (sc : Scopus) (g : CitationGraph) (ids : List Ident) (b : Bool) :
    (initialise sc g ids b).iter_depth = g.iter_depth ∧
    (initialise sc g ids b).use_doi = some b ∧
    (initialise sc g ids b).name = g.name ∧
    (initialise sc g ids b).graph.edges = g.graph.edges ∧
    (initialise sc g ids b).papers_by_iter_depth =
      alistSet g.papers_by_iter_depth g.iter_depth
        (ids.filterMap (fun i => sc.get_from_scopus i (schemeOf b) g.iter_depth)).toFinset ∧
    (initialise sc g ids b).retrievals_total = g.retrievals_total + ids.length ∧
    (initialise sc g ids b).retrievals_failed = g.retrievals_failed +
      ids.countP (fun i => (sc.get_from_scopus i (schemeOf b) g.iter_depth).isNone) ∧
    (initialise sc g ids b).graph.nodeKeys.toFinset =
      g.graph.nodeKeys.toFinset ∪
        ((ids.filterMap (fun i => sc.get_from_scopus i (schemeOf b) g.iter_depth)).map
          PaperInfo.scopus_id).toFinset := by
  obtain ⟨m1, m2, m3, m4, m5⟩ :=
    initFold_meta sc (schemeOf b) ids ({ g with use_doi := some b }, (∅ : Finset PaperInfo))
  obtain ⟨c1, c2⟩ :=
    initFold_counters sc (schemeOf b) ids ({ g with use_doi := some b }, (∅ : Finset PaperInfo))
  have hset :=
    initFold_set sc (schemeOf b) ids ({ g with use_doi := some b }, (∅ : Finset PaperInfo))
  have hkeys :=
    initFold_nodeKeys sc (schemeOf b) ids ({ g with use_doi := some b }, (∅ : Finset PaperInfo))
  refine ⟨m1, m3, m4, m5, ?_, c1, c2, hkeys⟩
  show alistSet
      (ids.foldl (initStep sc (schemeOf b))
        ({ g with use_doi := some b }, (∅ : Finset PaperInfo))).1.papers_by_iter_depth
      (ids.foldl (initStep sc (schemeOf b))
        ({ g with use_doi := some b }, (∅ : Finset PaperInfo))).1.iter_depth
      (ids.foldl (initStep sc (schemeOf b))
        ({ g with use_doi := some b }, (∅ : Finset PaperInfo))).2 = _
  rw [m1, m2, hset, Finset.empty_union]

theorem initialise_frontier_nodes (sc : Scopus) (g : CitationGraph) (ids : List Ident)
    (b : Bool) (p : PaperInfo)
    (hp : p ∈ (ids.filterMap
      (fun i => sc.get_from_scopus i (schemeOf b) g.iter_depth)).toFinset) :
    (initialise sc g ids b).graph.hasNode p.scopus_id = true := by
  have hmem : p ∈ (ids.foldl (initStep sc (schemeOf b))
      ({ g with use_doi := some b }, (∅ : Finset PaperInfo))).2 := by
    rw [initFold_set]
    exact Finset.mem_union_right _ hp
  exact initFold_acc_nodes sc (schemeOf b) ids
    ({ g with use_doi := some b }, (∅ : Finset PaperInfo))
    (fun q hq => absurd hq (Finset.not_mem_empty q)) p hmem

theorem iterate_spec (sc : Scopus) (g : CitationGraph) :
    (iterate sc g).iter_depth = g.iter_depth + 1 ∧
    (iterate sc g).use_doi = g.use_doi ∧
    (iterate sc g).name = g.name ∧
    (iterate sc g).papers_by_iter_depth =
      alistSet g.papers_by_iter_depth (g.iter_depth + 1)
        ((iterRefs sc g).foldl iterStep (g, (∅ : Finset PaperInfo))).2 ∧
    (iterate sc g).graph = ((iterRefs sc g).foldl iterStep (g, (∅ : Finset PaperInfo))).1.graph ∧
    (iterate sc g).retrievals_total = g.retrievals_total + (iterRefs sc g).length ∧
    (iterate sc g).retrievals_failed =
      g.retrievals_failed + (iterRefs sc g).countP (fun pr => pr.2.isNone) := by
  obtain ⟨m1, m2, m3, m4⟩ := iterFold_meta (iterRefs sc g) (g, (∅ : Finset PaperInfo))
  obtain ⟨c1, c2⟩ := iterFold_counters (iterRefs sc g) (g, (∅ : Finset PaperInfo))
  refine ⟨rfl, m3, m4, ?_, rfl, c1, c2⟩
  show alistSet
      ((iterRefs sc g).foldl iterStep (g, (∅ : Finset PaperInfo))).1.papers_by_iter_depth
      (g.iter_depth + 1)
      ((iterRefs sc g).foldl iterStep (g, (∅ : Finset PaperInfo))).2 = _
  rw [m2]

/-! ## Build-level invariants -/

theorem buildState_zero (sc : Scopus) (name : String) (ids : List Ident) (b : Bool) :
    buildState sc name ids b 0 = initialise sc (CitationGraph.init name) ids b := rfl

theorem buildState_succ (sc : Scopus) (name : String) (ids : List Ident) (b : Bool)
    (k : Nat) :
    buildState sc name ids b (k + 1) = iterate sc (buildState sc name ids b k) :=
  Function.iterate_succ_apply' (iterate sc) k _

theorem buildState_papers_zero (sc : Scopus) (name : String) (ids : List Ident) (b : Bool) :
    (buildState sc name ids b 0).papers_by_iter_depth =
      [(0, (ids.filterMap (fun i => sc.get_from_scopus i (schemeOf b) 0)).toFinset)] := by
  rw [buildState_zero, (initialise_spec sc (CitationGraph.init name) ids b).2.2.2.2.1]
  rfl

theorem buildState_inv (sc : Scopus) (name : String) (ids : List Ident) (b : Bool)
    (k : Nat) :
    (buildState sc name ids b k).iter_depth = k ∧
    alistKeys (buildState sc name ids b k).papers_by_iter_depth = List.range (k + 1) ∧
    frontierHasNodes (buildState sc name ids b k) ∧
    frontiersDisjoint (buildState sc name ids b k) ∧
    (∀ e ∈ (buildState sc name ids b k).graph.edges, e.weight = none) := by
  induction k with
  | zero =>
      refine ⟨?_, ?_, ?_, ?_, ?_⟩
      · rw [buildState_zero]
        exact (initialise_spec sc (CitationGraph.init name) ids b).1
      · rw [buildState_papers_zero]
        simp [alistKeys, List.range_succ]
      · intro d s hget p hp
        rw [buildState_papers_zero] at hget
        by_cases hd : (0 : Nat) = d
        · subst hd
          have hTs :
              (ids.filterMap (fun i => sc.get_from_scopus i (schemeOf b) 0)).toFinset = s := by
            simpa [alistGet] using hget
          rw [← hTs] at hp
          rw [buildState_zero]
          exact initialise_frontier_nodes sc (CitationGraph.init name) ids b p hp
        · simp [alistGet, hd] at hget
      · intro d1 d2 s1 s2 hne h1 h2 p q hp hq
        rw [buildState_papers_zero] at h1 h2
        by_cases hd1 : (0 : Nat) = d1
        · by_cases hd2 : (0 : Nat) = d2
          · exact absurd (hd1.symm.trans hd2) hne
          · simp [alistGet, hd2] at h2
        · simp [alistGet, hd1] at h1
      · intro e he
        rw [buildState_zero] at he
        rw [(initialise_spec sc (CitationGraph.init name) ids b).2.2.2.1] at he
        exact absurd he (List.not_mem_nil e)
  | succ k ih =>
      obtain ⟨i1, i2, i3, i4, i5⟩ := ih
      obtain ⟨s1, s2, s3, s4, s5, s6, s7⟩ := iterate_spec sc (buildState sc name ids b k)
      have hstep := buildState_succ sc name ids b k
      have hdepth : (buildState sc name ids b (k + 1)).iter_depth = k + 1 := by
        rw [hstep, s1, i1]
      have hpap : (buildState sc name ids b (k + 1)).papers_by_iter_depth =
          alistSet (buildState sc name ids b k).papers_by_iter_depth (k + 1)
            ((iterRefs sc (buildState sc name ids b k)).foldl iterStep
              (buildState sc name ids b k, (∅ : Finset PaperInfo))).2 := by
        rw [hstep, s4, i1]
      have hnot : (k + 1 : Nat) ∉
          alistKeys (buildState sc name ids b k).papers_by_iter_depth := by
        rw [i2]
        simp [List.mem_range]
      have hkeys : alistKeys (buildState sc name ids b (k + 1)).papers_by_iter_depth =
          List.range (k + 1 + 1) := by
        rw [hpap, alistKeys_set_of_not_mem _ _ _ hnot, i2, ← List.range_succ]
      refine ⟨hdepth, hkeys, ?_, ?_, ?_⟩
      · intro d s hget p hp
        rw [hpap, alistGet_set] at hget
        by_cases hd : k + 1 = d
        · rw [if_pos hd] at hget
          have hS := Option.some_inj.mp hget
          rw [← hS] at hp
          have hnode := iterFold_acc_nodes (iterRefs sc (buildState sc name ids b k))
            (buildState sc name ids b k, (∅ : Finset PaperInfo))
            (fun q hq => absurd hq (Finset.not_mem_empty q)) p hp
          rw [hstep, s5]
          exact hnode
        · rw [if_neg hd] at hget
          have hnode := i3 d s hget p hp
          rw [hstep, s5]
          exact iterFold_hasNode_mono (iterRefs sc (buildState sc name ids b k))
            (buildState sc name ids b k, (∅ : Finset PaperInfo)) _ hnode
      · intro d1 d2 s1' s2' hne h1 h2 p q hp hq
        rw [hpap, alistGet_set] at h1 h2
        by_cases hd1 : k + 1 = d1
        · by_cases hd2 : k + 1 = d2
          · exact absurd (hd1.symm.trans hd2) hne
          · rw [if_pos hd1] at h1
            rw [if_neg hd2] at h2
            have hS := Option.some_inj.mp h1
            rw [← hS] at hp
            have horig := iterFold_origin (iterRefs sc (buildState sc name ids b k))
              (buildState sc name ids b k) (∅ : Finset PaperInfo) p hp
            cases horig with
            | inl h0 => exact absurd h0 (Finset.not_mem_empty p)
            | inr hfalse =>
                have hq' := i3 d2 s2' h2 q hq
                intro heq
                rw [heq, hq'] at hfalse
                exact Bool.noConfusion hfalse
        · by_cases hd2 : k + 1 = d2
          · rw [if_neg hd1] at h1
            rw [if_pos hd2] at h2
            have hS := Option.some_inj.mp h2
            rw [← hS] at hq
            have horig := iterFold_origin (iterRefs sc (buildState sc name ids b k))
              (buildState sc name ids b k) (∅ : Finset PaperInfo) q hq
            cases horig with
            | inl h0 => exact absurd h0 (Finset.not_mem_empty q)
            | inr hfalse =>
                have hp' := i3 d1 s1' h1 p hp
                intro heq
                rw [← heq, hp'] at hfalse
                exact Bool.noConfusion hfalse
          · rw [if_neg hd1] at h1
            rw [if_neg hd2] at h2
            exact i4 d1 d2 s1' s2' hne h1 h2 p q hp hq
      · intro e he
        rw [hstep, s5] at he
        exact iterFold_weightless (iterRefs sc (buildState sc name ids b k))
          (buildState sc name ids b k, (∅ : Finset PaperInfo)) i5 e he

/-! ## Counter bookkeeping -/

theorem countP_none_some {α β : Type} (f : α → Option β) (l : List α) :
    l.countP (fun x => (f x).isNone) + l.countP (fun x => (f x).isSome) = l.length := by
  induction l with
  | nil => rfl
  | cons x tl ih =>
      rw [List.countP_cons, List.countP_cons, List.length_cons]
      cases h : f x <;> simp [h] <;> omega

theorem buildState_counters (sc : Scopus) (name : String) (ids : List Ident) (b : Bool)
    (k : Nat) :
    (buildState sc name ids b k).retrievals_total =
      (buildState sc name ids b k).retrievals_failed + buildSuccesses sc name ids b k := by
  induction k with
  | zero =>
      have hid : (CitationGraph.init name).iter_depth = 0 := rfl
      have h6 := (initialise_spec sc (CitationGraph.init name) ids b).2.2.2.2.2.1
      have h7 := (initialise_spec sc (CitationGraph.init name) ids b).2.2.2.2.2.2.1
      rw [hid] at h7
      have ht0 : (CitationGraph.init name).retrievals_total = 0 := rfl
      have hf0 : (CitationGraph.init name).retrievals_failed = 0 := rfl
      rw [ht0] at h6
      rw [hf0] at h7
      have hcs := countP_none_some (fun i => sc.get_from_scopus i (schemeOf b) 0) ids
      have hbs : buildSuccesses sc name ids b 0 =
          ids.countP (fun i => (sc.get_from_scopus i (schemeOf b) 0).isSome) := rfl
      rw [buildState_zero, h6, h7, hbs]
      omega
  | succ k ih =>
      obtain ⟨s1, s2, s3, s4, s5, s6, s7⟩ := iterate_spec sc (buildState sc name ids b k)
      have hstep := buildState_succ sc name ids b k
      have hcs := countP_none_some (fun pr : PaperInfo × Option PaperInfo => pr.2)
        (iterRefs sc (buildState sc name ids b k))
      have hbs : buildSuccesses sc name ids b (k + 1) =
          buildSuccesses sc name ids b k +
            (iterRefs sc (buildState sc name ids b k)).countP
              (fun pr => pr.2.isSome) := by
        show ids.countP (fun i => (sc.get_from_scopus i (schemeOf b) 0).isSome) +
            (passSucc sc (initialise sc (CitationGraph.init name) ids b) k +
              (iterRefs sc (buildState sc name ids b k)).countP
                (fun pr => pr.2.isSome)) = _
        show _ = ids.countP (fun i => (sc.get_from_scopus i (schemeOf b) 0).isSome) +
            passSucc sc (initialise sc (CitationGraph.init name) ids b) k +
            (iterRefs sc (buildState sc name ids b k)).countP (fun pr => pr.2.isSome)
        omega
      rw [hstep, s6, s7, hbs]
      omega

/-! ## From the build entry point to build states -/

theorem build_from_ids_ok (sc : Scopus) (g : CitationGraph) (ids : List Ident) (b : Bool)
    (t : Int) (ht : 0 ≤ t) :
    build_from_ids sc g ids b t =
      Except.ok ((iterate sc)^[t.toNat] (initialise sc g ids b)) := by
  simp only [build_from_ids]
  rw [if_neg (not_lt.mpr ht)]

theorem build_from_ids_fresh (sc : Scopus) (name : String) (ids : List Ident) (b : Bool)
    (k : Nat) :
    build_from_ids sc (CitationGraph.init name) ids b (k : Int) =
      Except.ok (buildState sc name ids b k) := by
  rw [build_from_ids_ok sc _ ids b _ (Int.natCast_nonneg k), Int.toNat_natCast]
  rfl

theorem build_ok_inv (sc : Scopus) (name : String) (ids : List Ident) (b : Bool)
    (k : Nat) (g' : CitationGraph)
    (h : build_from_ids sc (CitationGraph.init name) ids b (k : Int) = Except.ok g') :
    g' = buildState sc name ids b k := by
  rw [build_from_ids_fresh] at h
  exact (Except.ok.inj h).symm

/-! ## The Graphistry export transform -/

theorem transformNodeAttrs_spec (attrs : AttrMap) (sid t : AttrVal)
    (hsid : alistGet attrs "scopus_id" = some sid)
    (ht : alistGet attrs "title" = some t) :
    transformNodeAttrs attrs = some
      (alistPop (alistSet (alistSet attrs "scopus_id" (AttrVal.str (strRender sid)))
        "paper_title" t) "title") := by
  simp [transformNodeAttrs, hsid, ht]

theorem transformed_attrs_facts (attrs A : AttrMap) (sid t : AttrVal)
    (hsid : alistGet attrs "scopus_id" = some sid)
    (ht : alistGet attrs "title" = some t)
    (hA : transformNodeAttrs attrs = some A) :
    alistGet A "scopus_id" = some (AttrVal.str (strRender sid)) ∧
    alistGet A "paper_title" = some t ∧
    alistGet A "title" = none ∧
    (∀ k2 : String, k2 ≠ "scopus_id" → k2 ≠ "title" → k2 ≠ "paper_title" →
      alistGet A k2 = alistGet attrs k2) := by
  rw [transformNodeAttrs_spec attrs sid t hsid ht] at hA
  have hAeq := Option.some_inj.mp hA
  rw [← hAeq]
  refine ⟨?_, ?_, ?_, ?_⟩
  · rw [alistGet_pop, if_neg (by decide), alistGet_set, if_neg (by decide),
      alistGet_set, if_pos rfl]
  · rw [alistGet_pop, if_neg (by decide), alistGet_set, if_pos rfl]
  · rw [alistGet_pop, if_pos rfl]
  · intro k2 h1 h2 h3
    rw [alistGet_pop, if_neg (fun hh => h2 hh.symm), alistGet_set,
      if_neg (fun hh => h3 hh.symm), alistGet_set, if_neg (fun hh => h1 hh.symm)]

theorem transformNodes_forall2 (ns ns' : List (ScopusID × AttrMap))
    (h : transformNodes ns = some ns') :
    List.Forall₂ (fun q r => q.1 = r.1 ∧ transformNodeAttrs q.2 = some r.2) ns ns' := by
  induction ns generalizing ns' with
  | nil =>
      have hns : ([] : List (ScopusID × AttrMap)) = ns' := Option.some_inj.mp h
      rw [← hns]
      exact List.Forall₂.nil
  | cons hd tl ih =>
      obtain ⟨n, attrs⟩ := hd
      cases hA : transformNodeAttrs attrs with
      | none =>
          have : transformNodes ((n, attrs) :: tl) = none := by
            simp [transformNodes, hA]
          rw [this] at h
          exact absurd h (by simp)
      | some a =>
          cases hR : transformNodes tl with
          | none =>
              have : transformNodes ((n, attrs) :: tl) = none := by
                simp [transformNodes, hA, hR]
              rw [this] at h
              exact absurd h (by simp)
          | some r =>
              have hc : transformNodes ((n, attrs) :: tl) = some ((n, a) :: r) := by
                simp [transformNodes, hA, hR]
              rw [hc] at h
              have := Option.some_inj.mp h
              rw [← this]
              exact List.Forall₂.cons ⟨rfl, hA⟩ (ih r hR)

theorem forall2_fst_keys (ns ns' : List (ScopusID × AttrMap))
    (h : List.Forall₂ (fun q r => q.1 = r.1 ∧ transformNodeAttrs q.2 = some r.2) ns ns') :
    alistKeys ns' = alistKeys ns := by
  induction h with
  | nil => rfl
  | cons hrel htl ih =>
      simp only [alistKeys, List.map_cons] at ih ⊢
      rw [hrel.1, ih]

theorem transform_graphistry_spec (g g' : CitationGraph)
    (h : transform_graphistry g = some g') :
    g'.graph.edges = g.graph.edges ∧ g'.name = g.name ∧ g'.use_doi = g.use_doi ∧
    g'.iter_depth = g.iter_depth ∧ g'.papers_by_iter_depth = g.papers_by_iter_depth ∧
    g'.retrievals_total = g.retrievals_total ∧
    g'.retrievals_failed = g.retrievals_failed ∧
    List.Forall₂ (fun q r => q.1 = r.1 ∧ transformNodeAttrs q.2 = some r.2)
      g.graph.nodes g'.graph.nodes := by
  cases hN : transformNodes g.graph.nodes with
  | none =>
      have : transform_graphistry g = none := by simp [transform_graphistry, hN]
      rw [this] at h
      exact absurd h (by simp)
  | some ns =>
      have hg : transform_graphistry g =
          some { g with graph := { g.graph with nodes := ns } } := by
        simp [transform_graphistry, hN]
      rw [hg] at h
      have h2 := Option.some_inj.mp h
      rw [← h2]
      exact ⟨rfl, rfl, rfl, rfl, rfl, rfl, rfl, transformNodes_forall2 _ _ hN⟩

/-! ## Claim theorems -/

/-- C1: frontier disjointness. For every graph produced by `build_from_ids`
on a freshly constructed `CitationGraph`, no `scopus_id` appears in the
frontier sets (`papers_by_iter_depth` values) of two different depths: a
paper whose `scopus_id` is already a node of the graph is never admitted to
a later depth's frontier. -/
theorem C1_frontier_disjoint (sc : Scopus) (name : String) (ids : List Ident)
    (b : Bool) (k : Nat) (g' : CitationGraph)
    (h : build_from_ids sc (CitationGraph.init name) ids b (k : Int) = Except.ok g')
    (d1 d2 : Nat) (s1 s2 : Finset PaperInfo) (hne : d1 ≠ d2)
    (h1 : alistGet g'.papers_by_iter_depth d1 = some s1)
    (h2 : alistGet g'.papers_by_iter_depth d2 = some s2)
    (p q : PaperInfo) (hp : p ∈ s1) (hq : q ∈ s2) :
    p.scopus_id ≠ q.scopus_id := by
  have hg := build_ok_inv sc name ids b k g' h
  subst hg
  exact (buildState_inv sc name ids b k).2.2.2.1 d1 d2 s1 s2 hne h1 h2 p q hp hq

/-- C2: depth contiguity and terminal depth. After `build_from_ids` with
target depth `k ≥ 0` on a freshly constructed graph, `papers_by_iter_depth`
has keys exactly `[0, 1, …, k]` (in insertion order) and `iter_depth = k`;
moreover every expansion pass increments `iter_depth` by exactly one (so it
is never decremented). -/
theorem C2_depth_contiguity (sc : Scopus) (name : String) (ids : List Ident)
    (b : Bool) (k : Nat) (g' : CitationGraph)
    (h : build_from_ids sc (CitationGraph.init name) ids b (k : Int) = Except.ok g') :
    g'.iter_depth = k ∧
    alistKeys g'.papers_by_iter_depth = List.range (k + 1) ∧
    (∀ g0 : CitationGraph, (iterate sc g0).iter_depth = g0.iter_depth + 1) := by
  have hg := build_ok_inv sc name ids b k g' h
  subst hg
  exact ⟨(buildState_inv sc name ids b k).1, (buildState_inv sc name ids b k).2.1,
    fun g0 => rfl⟩

/-- C3: per-pair processing in one expansion pass. A pair with an absent
child only bumps `retrievals_total` and `retrievals_failed`, leaving the
graph and next-frontier accumulator untouched; a pair with a present child
upserts the edge parent → child unconditionally, even when the child's
`scopus_id` is already a node. In particular a self-citation of the seed
(`scSelf`) creates the edge `1 → 1` while `papers_by_iter_depth[1]` stays
empty. -/
theorem C3_per_pair :
    (∀ (st : CitationGraph × Finset PaperInfo) (parent : PaperInfo),
      iterStep st (parent, none) =
        ({ st.1 with retrievals_total := st.1.retrievals_total + 1,
                     retrievals_failed := st.1.retrievals_failed + 1 }, st.2)) ∧
    (∀ (st : CitationGraph × Finset PaperInfo) (parent child : PaperInfo),
      (iterStep st (parent, some child)).1.graph.has_edge parent.scopus_id
        child.scopus_id = true) ∧
    build_from_ids scSelf (CitationGraph.init "CitationGraph") ["id1"] true 1 =
      Except.ok (buildState scSelf "CitationGraph" ["id1"] true 1) ∧
    (buildState scSelf "CitationGraph" ["id1"] true 1).graph.has_edge
      pA.scopus_id pA.scopus_id = true ∧
    alistGet (buildState scSelf "CitationGraph" ["id1"] true 1).papers_by_iter_depth 1 =
      some (∅ : Finset PaperInfo) := by
  refine ⟨iterStep_none, ?_, rfl, by decide, by decide⟩
  intro st parent child
  rw [iterStep_graph_some]
  exact has_edge_add_cit_graph_edge _ _ _ _ _ _

/-- C4: node upsert idempotence. Upserting an identifier that is already a
node is a complete no-op (so its stored attributes are unchanged), and for
any sequence of `add_cit_graph_node` calls on an empty graph the resulting
node count is the number of distinct identifiers seen. -/
theorem C4_node_upsert :
    (∀ (g : DiGraph) (n : ScopusID) (props : AttrMap),
      g.hasNode n = true → add_cit_graph_node g n props = g) ∧
    (∀ calls : List (ScopusID × AttrMap),
      (nodeUpserts calls { nodes := [], edges := [] }).nodes.length =
        (calls.map Prod.fst).toFinset.card) := by
  constructor
  · exact add_cit_graph_node_of_hasNode
  · intro calls
    have hkeys := nodeUpserts_keys_toFinset calls { nodes := [], edges := [] }
    have hnodup := nodeUpserts_nodup calls { nodes := [], edges := [] }
      (by simp [DiGraph.nodeKeys, alistKeys])
    rw [length_nodes_eq_length_keys, ← List.toFinset_card_of_nodup hnodup, hkeys]
    simp [DiGraph.nodeKeys, alistKeys]

/-- C5: edge upsert semantics. `add_cit_graph_edge` ensures both endpoint
nodes exist (creating them only when absent, exactly as two node upserts
would), keeps at most one edge per ordered pair (and exactly one for the
upserted pair), writes a non-null `edge_weight` unconditionally, and with
`edge_weight = none` keeps an existing edge's attributes unchanged while a
freshly created edge carries no weight. -/
theorem C5_edge_upsert (g : DiGraph) (p : ScopusID) (pp : AttrMap) (c : ScopusID)
    (cp : AttrMap) (w : Option Int) (hu : edgeKeysUnique g) :
    (add_cit_graph_edge g p pp c cp w).hasNode p = true ∧
    (add_cit_graph_edge g p pp c cp w).hasNode c = true ∧
    (add_cit_graph_edge g p pp c cp w).has_edge p c = true ∧
    (add_cit_graph_edge g p pp c cp w).nodes =
      (add_cit_graph_node (add_cit_graph_node g p pp) c cp).nodes ∧
    edgeKeysUnique (add_cit_graph_edge g p pp c cp w) ∧
    edgeCount (add_cit_graph_edge g p pp c cp w) p c = 1 ∧
    (∀ wt : Int, w = some wt →
      edgeWeight (add_cit_graph_edge g p pp c cp w) p c = some (some wt)) ∧
    (w = none → g.has_edge p c = true →
      (add_cit_graph_edge g p pp c cp w).edges = g.edges) ∧
    (w = none → g.has_edge p c = false →
      edgeWeight (add_cit_graph_edge g p pp c cp w) p c = some none) := by
  refine ⟨?_, ?_, has_edge_add_cit_graph_edge g p pp c cp w,
    nodes_add_cit_graph_edge g p pp c cp w,
    edgeKeysUnique_add_cit_graph_edge g p pp c cp w hu,
    edgeCount_add_cit_graph_edge_self g p pp c cp w hu, ?_, ?_, ?_⟩
  · rw [hasNode_add_cit_graph_edge]
    simp
  · rw [hasNode_add_cit_graph_edge]
    simp
  · intro wt hwt
    subst hwt
    exact edgeWeight_add_some g p pp c cp wt
  · intro hw hhe
    subst hw
    rw [edges_add_cit_graph_edge_none, if_pos hhe]
  · intro hw hhe
    subst hw
    exact edgeWeight_add_none_of_not g p pp c cp hhe

/-- C6: counter invariant. After a fresh build, `retrievals_failed ≤
retrievals_total` and `retrievals_total = retrievals_failed +` (number of
successfully resolved items processed, counting re-encounters); both
counters are monotonically non-decreasing at every observable point: across
each per-item step and across each whole pass. -/
theorem C6_counters (sc : Scopus) (name : String) (ids : List Ident) (b : Bool)
    (k : Nat) (g' : CitationGraph)
    (h : build_from_ids sc (CitationGraph.init name) ids b (k : Int) = Except.ok g') :
    g'.retrievals_failed ≤ g'.retrievals_total ∧
    g'.retrievals_total = g'.retrievals_failed + buildSuccesses sc name ids b k ∧
    (∀ (st : CitationGraph × Finset PaperInfo) (pr : PaperInfo × Option PaperInfo),
      st.1.retrievals_total ≤ (iterStep st pr).1.retrievals_total ∧
      st.1.retrievals_failed ≤ (iterStep st pr).1.retrievals_failed) ∧
    (∀ (idt : IdType) (st : CitationGraph × Finset PaperInfo) (i : Ident),
      st.1.retrievals_total ≤ (initStep sc idt st i).1.retrievals_total ∧
      st.1.retrievals_failed ≤ (initStep sc idt st i).1.retrievals_failed) ∧
    (∀ g0 : CitationGraph,
      g0.retrievals_total ≤ (iterate sc g0).retrievals_total ∧
      g0.retrievals_failed ≤ (iterate sc g0).retrievals_failed) ∧
    (∀ g0 : CitationGraph,
      g0.retrievals_total ≤ (initialise sc g0 ids b).retrievals_total ∧
      g0.retrievals_failed ≤ (initialise sc g0 ids b).retrievals_failed) ∧
    (∀ (st : CitationGraph × Finset PaperInfo) (pr : PaperInfo × Option PaperInfo),
      st.1.retrievals_failed ≤ st.1.retrievals_total →
      (iterStep st pr).1.retrievals_failed ≤ (iterStep st pr).1.retrievals_total) ∧
    (∀ (idt : IdType) (st : CitationGraph × Finset PaperInfo) (i : Ident),
      st.1.retrievals_failed ≤ st.1.retrievals_total →
      (initStep sc idt st i).1.retrievals_failed ≤
        (initStep sc idt st i).1.retrievals_total) := by
  have hg := build_ok_inv sc name ids b k g' h
  subst hg
  have hid := buildState_counters sc name ids b k
  refine ⟨by omega, hid, ?_, ?_, ?_, ?_, ?_, ?_⟩
  · intro st pr
    obtain ⟨c1, c2⟩ := iterStep_counters st pr
    omega
  · intro idt st i
    obtain ⟨c1, c2⟩ := initStep_counters sc idt st i
    omega
  · intro g0
    obtain ⟨_, _, _, _, _, c1, c2⟩ := iterate_spec sc g0
    omega
  · intro g0
    obtain ⟨_, _, _, _, _, c1, c2⟩ := initialise_spec sc g0 ids b
    omega
  · intro st pr hle
    obtain ⟨c1, c2⟩ := iterStep_counters st pr
    by_cases hc : pr.2.isNone = true <;> simp [hc] at c2 <;> omega
  · intro idt st i hle
    obtain ⟨c1, c2⟩ := initStep_counters sc idt st i
    by_cases hc : (sc.get_from_scopus i idt st.1.iter_depth).isNone = true <;>
      simp [hc] at c2 <;> omega

/-- C7: initialization postcondition. After the initialization pass on a
fresh graph, `papers_by_iter_depth[0]` is exactly the value-deduplicated set
of successfully resolved seed papers, `iter_depth` is still 0, `use_doi` is
the given scheme flag, a failed seed lookup bumps both counters and touches
nothing else (in particular no node is created), and a build with target
depth 0 returns the initialised graph: resolved seed nodes, zero edges, and
the seed retrieval counts. -/
theorem C7_init_postcondition (sc : Scopus) (name : String) (ids : List Ident)
    (b : Bool) :
    alistGet (initialise sc (CitationGraph.init name) ids b).papers_by_iter_depth 0 =
      some (ids.filterMap (fun i => sc.get_from_scopus i (schemeOf b) 0)).toFinset ∧
    (initialise sc (CitationGraph.init name) ids b).iter_depth = 0 ∧
    (initialise sc (CitationGraph.init name) ids b).use_doi = some b ∧
    (∀ (idt : IdType) (st : CitationGraph × Finset PaperInfo) (i : Ident),
      sc.get_from_scopus i idt st.1.iter_depth = none →
      initStep sc idt st i =
        ({ st.1 with retrievals_total := st.1.retrievals_total + 1,
                     retrievals_failed := st.1.retrievals_failed + 1 }, st.2)) ∧
    build_from_ids sc (CitationGraph.init name) ids b 0 =
      Except.ok (initialise sc (CitationGraph.init name) ids b) ∧
    (initialise sc (CitationGraph.init name) ids b).graph.edges = [] ∧
    (initialise sc (CitationGraph.init name) ids b).graph.nodeKeys.toFinset =
      ((ids.filterMap (fun i => sc.get_from_scopus i (schemeOf b) 0)).map
        PaperInfo.scopus_id).toFinset ∧
    (initialise sc (CitationGraph.init name) ids b).retrievals_total = ids.length ∧
    (initialise sc (CitationGraph.init name) ids b).retrievals_failed =
      ids.countP (fun i => (sc.get_from_scopus i (schemeOf b) 0).isNone) := by
  have hp := buildState_papers_zero sc name ids b
  rw [buildState_zero] at hp
  obtain ⟨i1, i2, i3, i4, i5, i6, i7, i8⟩ :=
    initialise_spec sc (CitationGraph.init name) ids b
  have hid : (CitationGraph.init name).iter_depth = 0 := rfl
  have ht0 : (CitationGraph.init name).retrievals_total = 0 := rfl
  have hf0 : (CitationGraph.init name).retrievals_failed = 0 := rfl
  have hk0 : (CitationGraph.init name).graph.nodeKeys.toFinset = ∅ := rfl
  rw [hid] at i7 i8
  rw [ht0] at i6
  rw [hf0] at i7
  rw [hk0] at i8
  refine ⟨?_, i1, i2, fun idt st i hh => initStep_none sc idt st i hh, ?_, i4, ?_, ?_, ?_⟩
  · rw [hp]
    simp [alistGet]
  · rw [build_from_ids_ok sc _ ids b 0 le_rfl]
    rfl
  · rw [i8, Finset.empty_union]
  · omega
  · omega

/-- C8: input validation. `build_from_ids` with a negative target depth
returns the validation error — uniformly in the oracle, the graph and the
seed list, so no external lookup has been consulted and no state derived
from the graph is produced — while any non-negative target depth yields a
normal `Except.ok` result. -/
theorem C8_validation :
    (∀ (sc : Scopus) (g : CitationGraph) (ids : List Ident) (b : Bool) (t : Int),
      t < 0 → build_from_ids sc g ids b t =
        Except.error "Target depth must be non-negative!") ∧
    (∀ (sc : Scopus) (g : CitationGraph) (ids : List Ident) (b : Bool) (t : Int),
      0 ≤ t → build_from_ids sc g ids b t =
        Except.ok ((iterate sc)^[t.toNat] (initialise sc g ids b))) := by
  constructor
  · intro sc g ids b t ht
    simp only [build_from_ids]
    rw [if_pos ht]
  · intro sc g ids b t ht
    exact build_from_ids_ok sc g ids b t ht

/-- C9: export purity. When `transform_graphistry` succeeds (which it does
exactly when every node carries the `scopus_id` and `title` attributes), the
returned copy has the same edges, node keys and traversal metadata as the
original — the original value is untouched, the embedding being pure — and
in the copy each node's `scopus_id` attribute is its string rendering, the
`title` attribute is renamed to `paper_title`, and all other attributes are
unchanged. -/
theorem C9_transform (g g' : CitationGraph) (h : transform_graphistry g = some g') :
    g'.graph.edges = g.graph.edges ∧ g'.name = g.name ∧ g'.use_doi = g.use_doi ∧
    g'.iter_depth = g.iter_depth ∧ g'.papers_by_iter_depth = g.papers_by_iter_depth ∧
    g'.retrievals_total = g.retrievals_total ∧
    g'.retrievals_failed = g.retrievals_failed ∧
    alistKeys g'.graph.nodes = alistKeys g.graph.nodes ∧
    List.Forall₂ (fun q r => q.1 = r.1 ∧
      ∀ sid t : AttrVal, alistGet q.2 "scopus_id" = some sid →
        alistGet q.2 "title" = some t →
        alistGet r.2 "scopus_id" = some (AttrVal.str (strRender sid)) ∧
        alistGet r.2 "paper_title" = some t ∧
        alistGet r.2 "title" = none ∧
        (∀ k2 : String, k2 ≠ "scopus_id" → k2 ≠ "title" → k2 ≠ "paper_title" →
          alistGet r.2 k2 = alistGet q.2 k2))
      g.graph.nodes g'.graph.nodes := by
  obtain ⟨e1, e2, e3, e4, e5, e6, e7, hfa⟩ := transform_graphistry_spec g g' h
  refine ⟨e1, e2, e3, e4, e5, e6, e7, forall2_fst_keys _ _ hfa, ?_⟩
  refine List.Forall₂.imp ?_ hfa
  intro q r hqr
  refine ⟨hqr.1, ?_⟩
  intro sid t hsid ht
  exact transformed_attrs_facts q.2 r.2 sid t hsid ht hqr.2

/-- C10: a build never assigns edge weights. Every edge upsert performed by
the expansion pass passes `edge_weight = none`, so after any fresh
`build_from_ids` run no edge carries a weight attribute; moreover a
weightless upsert can never introduce a weight on any edge. -/
theorem C10_no_weights (sc : Scopus) (name : String) (ids : List Ident) (b : Bool)
    (k : Nat) (g' : CitationGraph)
    (h : build_from_ids sc (CitationGraph.init name) ids b (k : Int) = Except.ok g') :
    (∀ e ∈ g'.graph.edges, e.weight = none) ∧
    (∀ (gD : DiGraph) (p : ScopusID) (pp : AttrMap) (c : ScopusID) (cp : AttrMap),
      (∀ e ∈ gD.edges, e.weight = none) →
      ∀ e ∈ (add_cit_graph_edge gD p pp c cp none).edges, e.weight = none) := by
  have hg := build_ok_inv sc name ids b k g' h
  subst hg
  refine ⟨(buildState_inv sc name ids b k).2.2.2.2, ?_⟩
  intro gD p pp c cp hall e he
  rw [edges_add_cit_graph_edge_none] at he
  by_cases hc : gD.has_edge p c = true
  · rw [if_pos hc] at he
    exact hall e he
  · rw [if_neg hc] at he
    rcases List.mem_append.1 he with h1 | h2
    · exact hall e h1
    · rw [List.mem_singleton.1 h2]

/-! ## Witnesses: the claim theorems evaluated at concrete inputs -/

/-- C1 witness: the one-hop chain build has frontiers `{pA}` at depth 0 and
`{pB}` at depth 1, and the theorem yields their key disjointness. -/
theorem C1_witness : pA.scopus_id ≠ pB.scopus_id :=
  C1_frontier_disjoint scChain "CitationGraph" ["id1"] true 1
    (buildState scChain "CitationGraph" ["id1"] true 1) rfl 0 1 {pA} {pB}
    (by decide) (by decide) (by decide) pA pB (by decide) (by decide)

/-- C2 witness: a depth-1 build over `scB` ends at `iter_depth = 1` with
frontier keys `[0, 1]`. -/
theorem C2_witness :
    (buildState scB "CitationGraph" ["id1", "id2"] true 1).iter_depth = 1 ∧
    alistKeys (buildState scB "CitationGraph" ["id1", "id2"] true 1).papers_by_iter_depth =
      List.range 2 ∧
    (iterate scB (CitationGraph.init "CitationGraph")).iter_depth =
      (CitationGraph.init "CitationGraph").iter_depth + 1 := by
  have h := C2_depth_contiguity scB "CitationGraph" ["id1", "id2"] true 1
    (buildState scB "CitationGraph" ["id1", "id2"] true 1) rfl
  exact ⟨h.1, h.2.1, h.2.2 (CitationGraph.init "CitationGraph")⟩

/-- C4 witness: re-upserting node 1 is a no-op, and three calls with two
distinct identifiers yield two nodes. -/
theorem C4_witness :
    add_cit_graph_node { nodes := [(1, [("title", AttrVal.str "x")])], edges := [] } 1 [] =
      { nodes := [(1, [("title", AttrVal.str "x")])], edges := [] } ∧
    (nodeUpserts [(1, ([] : AttrMap)), (1, [("a", AttrVal.num 2)]), (2, [])]
      { nodes := [], edges := [] }).nodes.length =
      (([(1, ([] : AttrMap)), (1, [("a", AttrVal.num 2)]), (2, [])]).map
        Prod.fst).toFinset.card :=
  ⟨C4_node_upsert.1 _ 1 [] (by decide), C4_node_upsert.2 _⟩

/-- C5 witness on `gE` (edge 1 → 2 with weight 5): a weighted upsert
overwrites the weight saving edge uniqueness, a weightless upsert leaves the
edge list untouched, and a weightless upsert of a fresh pair creates an
unweighted edge. -/
theorem C5_witness :
    edgeWeight (add_cit_graph_edge gE 1 [] 2 [] (some 7)) 1 2 = some (some 7) ∧
    edgeCount (add_cit_graph_edge gE 1 [] 2 [] (some 7)) 1 2 = 1 ∧
    (add_cit_graph_edge gE 1 [] 2 [] none).edges = gE.edges ∧
    edgeWeight (add_cit_graph_edge gE 2 [] 3 [] none) 2 3 = some none := by
  have huE : edgeKeysUnique gE := fun a b => List.countP_le_length _
  have h7 := C5_edge_upsert gE 1 [] 2 [] (some 7) huE
  have hn := C5_edge_upsert gE 1 [] 2 [] none huE
  have hf := C5_edge_upsert gE 2 [] 3 [] none huE
  exact ⟨h7.2.2.2.2.2.2.1 7 rfl, h7.2.2.2.2.2.1,
    hn.2.2.2.2.2.2.2.1 rfl (by decide), hf.2.2.2.2.2.2.2.2 rfl (by decide)⟩

/-- C6 witness: spec Scenario B counters (`total = 2`, `failed = 1`) satisfy
the counter identity for the depth-0 build over `scB`. -/
theorem C6_witness :
    (buildState scB "CitationGraph" ["id1", "id2"] true 0).retrievals_failed ≤
      (buildState scB "CitationGraph" ["id1", "id2"] true 0).retrievals_total ∧
    (buildState scB "CitationGraph" ["id1", "id2"] true 0).retrievals_total =
      (buildState scB "CitationGraph" ["id1", "id2"] true 0).retrievals_failed +
        buildSuccesses scB "CitationGraph" ["id1", "id2"] true 0 := by
  have h := C6_counters scB "CitationGraph" ["id1", "id2"] true 0
    (buildState scB "CitationGraph" ["id1", "id2"] true 0) rfl
  exact ⟨h.1, h.2.1⟩

/-- C7 witness: spec Scenario B — seed `"id1"` resolves, `"id2"` does not;
depth-0 frontier `{pA}`, `total = 2`, `failed = 1`, no edges, and the failed
step only bumps the counters. -/
theorem C7_witness :
    alistGet (initialise scB (CitationGraph.init "CitationGraph") ["id1", "id2"]
      true).papers_by_iter_depth 0 = some {pA} ∧
    (initialise scB (CitationGraph.init "CitationGraph") ["id1", "id2"]
      true).retrievals_total = 2 ∧
    (initialise scB (CitationGraph.init "CitationGraph") ["id1", "id2"]
      true).retrievals_failed = 1 ∧
    (initialise scB (CitationGraph.init "CitationGraph") ["id1", "id2"]
      true).graph.edges = [] ∧
    initStep scB IdType.doi (CitationGraph.init "CitationGraph",
      (∅ : Finset PaperInfo)) "id2" =
      ({ CitationGraph.init "CitationGraph" with
           retrievals_total := 1, retrievals_failed := 1 },
        (∅ : Finset PaperInfo)) := by
  have h := C7_init_postcondition scB "CitationGraph" ["id1", "id2"] true
  refine ⟨?_, ?_, ?_, h.2.2.2.2.2.1, ?_⟩
  · rw [h.1]
    decide
  · rw [h.2.2.2.2.2.2.2.1]
    decide
  · rw [h.2.2.2.2.2.2.2.2]
    decide
  · exact h.2.2.2.1 IdType.doi (CitationGraph.init "CitationGraph", ∅) "id2" (by decide)

/-- C8 witness: spec Scenario D — target depth −1 is rejected with the
validation error, and target depth 0 returns normally. -/
theorem C8_witness :
    build_from_ids scB (CitationGraph.init "CitationGraph") ["id1"] true (-1) =
      Except.error "Target depth must be non-negative!" ∧
    build_from_ids scB (CitationGraph.init "CitationGraph") ["id1"] true 0 =
      Except.ok ((iterate scB)^[(0 : Int).toNat]
        (initialise scB (CitationGraph.init "CitationGraph") ["id1"] true)) :=
  ⟨C8_validation.1 scB _ ["id1"] true (-1) (by decide),
   C8_validation.2 scB _ ["id1"] true 0 (by decide)⟩

/-- C9 witness: transforming `gW` yields `gWT`, with edges, traversal
metadata and node keys unchanged. -/
theorem C9_witness :
    gWT.graph.edges = gW.graph.edges ∧
    gWT.papers_by_iter_depth = gW.papers_by_iter_depth ∧
    alistKeys gWT.graph.nodes = alistKeys gW.graph.nodes := by
  have h := C9_transform gW gWT (by decide)
  exact ⟨h.1, h.2.2.2.2.1, h.2.2.2.2.2.2.2.1⟩

/-- C10 witness: the self-citation build's only edge `1 → 1` carries no
weight. -/
theorem C10_witness : (⟨1, 1, none⟩ : EdgeData).weight = none := by
  have h := C10_no_weights scSelf "CitationGraph" ["id1"] true 1
    (buildState scSelf "CitationGraph" ["id1"] true 1) rfl
  exact h.1 ⟨1, 1, none⟩ (by decide)

end LitCitGraph
